import Mathlib

/-!
Verification of the dynamic type-erasure and method-dispatch core of libqi
(libqimessaging).  The definitions below are shallow embeddings of the
corresponding C++ source:

* `metaobjectbuilder.hpp` — compile-time signature derivation performed by
  `MetaObjectBuilder::advertiseMethod` (free-function and member overloads);
* `c/src/object_c.cpp` — the C-ABI entry points `qi_object_call` and
  `qi_object_builder_register_method`;
* `src/genericvalue.cpp` — the `GenericValue` conversion engine
  (`convert2`, `convert`, `convertCopy`).

Collaborator code whose implementation is not part of the sampled sources
(the `Type` subclasses' storage operations, `MetaObject` lookup,
`GenericObjectBuilder::xAdvertiseMethod`, `qi::signatureSplit`,
`GenericValue::clone`) is modelled from the specification; each such
definition carries a doc comment saying so.
-/

set_option maxHeartbeats 1000000
set_option linter.unusedVariables false

namespace qi

/-! ## 1. Signature derivation (`metaobjectbuilder.hpp`) -/

/-- A C++ type as seen by the boost.function_types machinery of
`advertiseMethod`: a concrete base type (identified by a numeric id), a
`const`-qualified type, or a reference type. -/
inductive CppType where
  | base (id : Nat)
  | constQ (t : CppType)
  | ref (t : CppType)
deriving DecidableEq

/-- `boost::remove_reference`: strips one outer reference. -/
def remove_reference : CppType → CppType
  | .ref t => t
  | t => t

/-- `boost::remove_const`: strips one outer const qualifier. -/
def remove_const : CppType → CppType
  | .constQ t => t
  | t => t

/-- The ambient registry of `metaTypeOf<T>()->signature()` tokens: one token
string per C++ type. -/
structure TypeEnv where
  tok : CppType → String

/-- The token contributed by one parameter position: the functor
`signature_function_arg_apply::operator()(T*)` receives the parameter type
transformed by `remove_reference` then `remove_const` (then `add_pointer`,
which only serves to pass a value and is stripped again by the `T*` pattern)
and emits `metaTypeOf<T>()->signature()`. -/
def paramToken (env : TypeEnv) (t : CppType) : String :=
  env.tok (remove_const (remove_reference t))

/-- The `stringstream` accumulation of
`signature << name << "::(" ; for_each(...) ; signature << ")"`. -/
def signatureEnvelope (env : TypeEnv) (name : String) (args : List CppType) : String :=
  (args.foldl (fun acc t => acc ++ paramToken env t) (name ++ "::(")) ++ ")"

/-- `MetaObjectBuilder::advertiseMethod(name, function)` (free-function
overload, metaobjectbuilder.hpp:70-91): returns the pair
(full parameter signature, return-type signature) handed to
`xAdvertiseMethod(sigret, signature.str(), ...)`. -/
def advertiseMethodFree (env : TypeEnv) (name : String) (args : List CppType)
    (ret : CppType) : String × String :=
  (signatureEnvelope env name args, env.tok ret)

/-- `MetaObjectBuilder::advertiseMethod(name, object, method)` (member
overload, metaobjectbuilder.hpp:132-153): `parameter_types` of a member
function type lists the receiver object type first; `boost::mpl::pop_front`
removes it before the envelope is built. -/
def advertiseMethodMember (env : TypeEnv) (name : String) (memArgs : List CppType)
    (ret : CppType) : String × String :=
  (signatureEnvelope env name memArgs.tail, env.tok ret)

/-! ## 2. The C-ABI adapter (`object_c.cpp`) -/

/-- A registered method's reflection record (spec §3). -/
structure MetaMethod where
  uid : Nat
  signature : String
  sigreturn : String

/-- Modelled from the spec: `MetaObject` is "a mapping from method-id to
MetaMethod, plus a reverse lookup from full signature string to id"
(spec §3); its implementation is not among the sampled sources. -/
structure MetaObject where
  methods : List MetaMethod

/-- Modelled from the spec: `MetaObject::methodId` — reverse lookup from the
full signature; the C sentinel for an unknown signature is `-1`
(spec §4.5 step 1: lookup of an unknown signature fails). -/
def MetaObject.methodId (mo : MetaObject) (sig : String) : Int :=
  match mo.methods.find? (fun m => m.signature == sig) with
  | some m => (m.uid : Int)
  | none => -1

/-- Modelled from the spec: `MetaObject::method` — lookup by id, `NULL`
(here `none`) when the id is not registered. -/
def MetaObject.method (mo : MetaObject) (mid : Int) : Option MetaMethod :=
  mo.methods.find? (fun m => (m.uid : Int) == mid)

/-- `qi_object_call` (object_c.cpp:45-63).  The function resolves the
signature to a method id, fetches the `MetaMethod*`, and immediately reads
`mm->sigreturn()` from it with no null check before starting the dispatch
(`xMetaCall`) that produces the future.  `some (sigreturn, signature)`
abstracts the started dispatch (the spec collaborators serialize and run
it); `none` models the native fault of dereferencing a `NULL`
`MetaMethod*`, which happens outside any future. -/
def qi_object_call (obj : MetaObject) (signature_c : String) :
    Option (String × String) :=
  let methodId := obj.methodId signature_c
  match obj.method methodId with
  | none => none
  | some mm => some (mm.sigreturn, signature_c)

/-- The state of a `GenericObjectBuilder` reached through the C API: the
registered full signatures with their ids. -/
structure GenericObjectBuilder where
  methods : List (String × Nat)
  nextId : Nat

/-- Modelled from the spec: `GenericObjectBuilder::xAdvertiseMethod`
registers the full signature and reports a duplicate signature as a
synchronous builder-time error (spec §4.4, §7: "Re-registering a name that
collides with an existing one is a builder-time error, reported
synchronously"); the error is reported through a negative return.  The
implementation is not among the sampled sources. -/
def xAdvertiseMethod (b : GenericObjectBuilder) (retsig sig : String) :
    GenericObjectBuilder × Int :=
  if b.methods.any (fun m => m.1 == sig) then (b, -1)
  else ({ methods := b.methods ++ [(sig, b.nextId)], nextId := b.nextId + 1 },
        (b.nextId : Int))

/-- The character `:`. -/
def colonChar : Char := Char.ofNat 58

/-- Splitting a character list at each `::` separator. -/
def splitColons : List Char → List Char → List (List Char)
  | [], acc => [acc.reverse]
  | c1 :: c2 :: rest, acc =>
    if c1 = colonChar ∧ c2 = colonChar then acc.reverse :: splitColons rest []
    else splitColons (c2 :: rest) (c1 :: acc)
  | c :: rest, acc => splitColons rest (c :: acc)

/-- Modelled from the spec: `qi::signatureSplit` splits a complete signature
`ret::name::(params)` into `[ret, name, params]` following the signature
grammar of spec §6 ("`name::(s1 s2 …)` … return-type signature is tracked
separately"); the implementation is not among the sampled sources. -/
def signatureSplit (s : String) : List String :=
  (splitColons s.data []).map (fun l => String.mk l)

/-- `qi_object_builder_register_method` (object_c.cpp:106-119): splits the
complete signature, rebuilds `name::(params)`, forwards to
`xAdvertiseMethod` — and then returns the constant `0`. -/
def qi_object_builder_register_method (b : GenericObjectBuilder)
    (complete_signature : String) : GenericObjectBuilder × Int :=
  let sigInfo := signatureSplit complete_signature
  let signature := (sigInfo.getD 1 "") ++ "::" ++ (sigInfo.getD 2 "")
  let r := xAdvertiseMethod b (sigInfo.getD 0 "") signature
  (r.1, 0)

/-! ## 3. The erased-value conversion engine (`genericvalue.cpp`)

Storage is modelled as a heap of blocks addressed by `Nat`; a `void*`
storage handle is a block address plus a byte-offset-like displacement
(`Ptr`), so that the inheritance pointer adjustment
`(void*)((long)value + inheritOffset)` and view aliasing are expressible.
Allocation appends a block; `destroy` records the freed address in a
ledger (the blocks stay readable in the model — the ledger is what the
destruction claims are stated against).  Recursive conversions are fuelled
because the C++ recursion is through heap pointers and nothing in the
language enforces its termination. -/

/-- `Type::Kind` (the taxonomy tag). -/
inductive Kind where
  | kint
  | kfloat
  | kstring
  | klist
  | kmap
  | kobject
  | kdynamic
  | kvoid
  | kunknown
deriving DecidableEq

/-- The closed universe of type identities (`Type::info()`): the concrete
types exercised by the conversion engine.  `tint w` is a `TypeInt` whose
storage is a `w`-bit signed integer; `tfloat prec` is a `TypeFloat` whose
storage holds `prec` mantissa bits (24 for `float`, 53 for `double`);
`tobj oid` is a registered `ObjectType`; `tGenericValue` and
`tGenericObject` are `typeOf<GenericValue>()` and
`typeOf<GenericObject>()`. -/
inductive Ty where
  | tint (w : Nat)
  | tfloat (prec : Nat)
  | tstr
  | tlist (elem : Ty)
  | tobj (oid : Nat)
  | tGenericValue
  | tGenericObject
deriving DecidableEq

/-- The kind of each type.  `GenericValue`'s descriptor is the
self-describing dynamic kind; `GenericObject`'s wrapper descriptor has no
kind of its own (both are only ever recognised by `info()` comparison in
the conversion code, never by kind). -/
def Ty.kind : Ty → Kind
  | .tint _ => .kint
  | .tfloat _ => .kfloat
  | .tstr => .kstring
  | .tlist _ => .klist
  | .tobj _ => .kobject
  | .tGenericValue => .kdynamic
  | .tGenericObject => .kunknown

/-- A `Type*` descriptor instance.  Distinct `iid`s model distinct
descriptor instances for the same effective type: `convert2` first compares
descriptor pointers and its own comment warns this "can have
false-negative (same effective type, different Type instances)";
`info()` equality is equality of `ty`. -/
structure Typ where
  ty : Ty
  iid : Nat
deriving DecidableEq

/-- The registry singleton descriptor for a type (`typeOf<T>()`). -/
def canonTyp (t : Ty) : Typ := ⟨t, 0⟩

/-- A storage handle: block address plus displacement.  For an object block
the displacement is the field offset of an inheritance view; for a list
block the displacement `i + 1` encodes a view of element `i` (0 is the
whole list). -/
structure Ptr where
  base : Nat
  off : Int
deriving DecidableEq

/-- A plain value tree: what one storage block holds once copied.  `dval`
is a stored erased `(Type*, void*)` pair — what a `vector<GenericValue>`
element is: copying a metavalue element into a list copies the pair, not
the storage it points to. -/
inductive Data where
  | di (v : Int)
  | df (q : ℚ)
  | ds (s : String)
  | dl (elems : List Data)
  | dobj (fields : List Data)
  | dval (t : Typ) (p : Ptr)

/-- One heap block. -/
inductive Block where
  | bdata (d : Data)
  | blist (elemTy : Typ) (elems : List Data)
  | bobj (fields : List Data)
  | bbox (t : Typ) (p : Ptr)

/-- The storage heap: allocated blocks, the ledger of destroyed addresses,
and the count of `qiLogWarning` emissions. -/
structure Heap where
  mem : List Block
  freed : List Nat
  warnings : Nat

/-- Allocate a fresh block, returning its handle. -/
def Heap.alloc (h : Heap) (b : Block) : Ptr × Heap :=
  (⟨h.mem.length, 0⟩, { h with mem := h.mem ++ [b] })

/-- `qi::detail::DynamicValue`: the fully dynamic intermediate
representation of the conversion of last resort; `invalid` is
`DynamicValue::Invalid`. -/
inductive DynamicValue where
  | invalid
  | dvInt (v : Int)
  | dvDouble (q : ℚ)
  | dvString (s : String)

/-- Modelled from the spec: the per-type operations whose implementations
are not among the sampled sources — `ObjectType::inherits(other)`
("is this type an ancestor/descendant of `other`, and if so at what
storage-address adjustment", spec §3; the C sentinel for "no relationship"
is `-1`), `Type::toValue` (conversion of a value to the dynamic
representation, spec §4.2 step 7) and `Type::fromValue` (reconstruction of
a freshly allocated value from it). -/
structure Env where
  inherits : Nat → Typ → Int
  toValue : Ty → Heap → Ptr → DynamicValue
  fromValue : Ty → DynamicValue → Heap → Ptr × Heap

/-- A trivial collaborator environment: no inheritance relationships, every
dynamic-representation conversion fails, reconstruction yields a null-like
handle without touching the heap. -/
def envTriv : Env :=
  { inherits := fun _ _ => -1
    toValue := fun _ _ _ => .invalid
    fromValue := fun _ _ h => (⟨0, 0⟩, h) }

/-- A collaborator environment with one inheritance relationship: object
type 0 (a `Derived`) inherits object type 1 (a `Base`) at storage offset 1;
everything else is unrelated. -/
def envInh : Env :=
  { inherits := fun oid tgt => if oid = 0 ∧ tgt.ty = .tobj 1 then 1 else -1
    toValue := fun _ _ _ => .invalid
    fromValue := fun _ _ h => (⟨0, 0⟩, h) }

/-- A collaborator environment whose dynamic-representation reconstruction
fabricates a zero scalar block: used to observe what the best-effort
fallback hands back. -/
def envCex : Env :=
  { inherits := fun _ _ => -1
    toValue := fun _ _ _ => .invalid
    fromValue := fun _ _ h => h.alloc (.bdata (.di 0)) }

/-- Reading the value stored behind a handle (the per-kind `get`/copy
operations; modelled from the spec's storage contract, spec §3). -/
def readData (h : Heap) (p : Ptr) : Option Data :=
  match h.mem[p.base]? with
  | some (.bdata d) => if p.off = 0 then some d else none
  | some (.blist _ elems) =>
    if p.off = 0 then some (.dl elems) else elems[(p.off - 1).toNat]?
  | some (.bobj fields) =>
    if 0 ≤ p.off then some (.dobj (fields.drop p.off.toNat)) else none
  | _ => none

/-- Overwrite a scalar cell (`TypeInt::set` / `TypeFloat::set` write into
freshly initialized storage). -/
def writeData (h : Heap) (p : Ptr) (d : Data) : Heap :=
  { h with mem := h.mem.set p.base (.bdata d) }

/-- Dereference a heap `GenericValue*` / `GenericObject*` (both are a
`(Type*, void*)` pair). -/
def readBox (h : Heap) (p : Ptr) : Option (Typ × Ptr) :=
  match h.mem[p.base]? with
  | some (.bbox t q) => if p.off = 0 then some (t, q) else none
  | _ => none

/-- Reading one field of an object value through a (possibly
inheritance-adjusted) handle. -/
def readField (h : Heap) (p : Ptr) (j : Int) : Option Data :=
  match h.mem[p.base]? with
  | some (.bobj fields) =>
    if 0 ≤ p.off + j then fields[(p.off + j).toNat]? else none
  | _ => none

/-- `TypeInt::get`: read the integer scalar behind a handle. -/
def intGet (h : Heap) (p : Ptr) : Option Int :=
  match readData h p with
  | some (.di v) => some v
  | _ => none

/-- `TypeFloat::get`: read the floating-point scalar behind a handle. -/
def floatGet (h : Heap) (p : Ptr) : Option ℚ :=
  match readData h p with
  | some (.df q) => some q
  | _ => none

/-- Modelled from the spec: `Type::initializeStorage` "allocates a
zero-value instance and returns an opaque storage handle" (spec §3).  The
conversion engine only ever initializes scalar, string and list storage. -/
def initializeStorage (h : Heap) (t : Typ) : Option (Ptr × Heap) :=
  match t.ty with
  | .tint _ => some (h.alloc (.bdata (.di 0)))
  | .tfloat _ => some (h.alloc (.bdata (.df 0)))
  | .tstr => some (h.alloc (.bdata (.ds "")))
  | .tlist e => some (h.alloc (.blist (canonTyp e) []))
  | _ => none

/-- A type-erased value: a `(Type*, storage)` pair. -/
structure GenericValue where
  type : Typ
  value : Ptr
deriving DecidableEq

/-- `GenericValue::destroy`: give the storage back; recorded in the freed
ledger. -/
def GenericValue.destroy (v : GenericValue) (h : Heap) : Heap :=
  { h with freed := v.value.base :: h.freed }

/-- The list-storable datum of a value: a metavalue (a value whose storage
is a heap `GenericValue` box) is stored as its `(Type*, void*)` pair — a
`vector<GenericValue>` copies the pair, not the storage it points to —
and any other value as a copy of its data. -/
def pushData (h : Heap) (v : GenericValue) : Option Data :=
  match h.mem[v.value.base]? with
  | some (.bbox t q) => if v.value.off = 0 then some (.dval t q) else none
  | _ => readData h v.value

/-- Modelled from the spec: `GenericList::pushBack` — "the list takes its
own copy" of the pushed element (spec §4.2 step 2, §4.3); the
implementation is not among the sampled sources. -/
def pushBack (h : Heap) (p : Ptr) (v : GenericValue) : Option Heap :=
  match h.mem[p.base]?, pushData h v with
  | some (.blist et elems), some d =>
    some { h with mem := h.mem.set p.base (.blist et (elems ++ [d])) }
  | _, _ => none

/-- Two's-complement narrowing of an `int64_t` into a `w`-bit signed
integer (`TypeInt::set`'s native narrowing, spec §4.2 step 2). -/
def wrapInt (w : Nat) (v : Int) : Int :=
  (v + 2 ^ (w - 1)) % 2 ^ w - 2 ^ (w - 1)

/-- `2^e` over the rationals, for an integer exponent. -/
def qpow2 (e : Int) : ℚ := 2 ^ e

/-- Absolute value on the rationals, spelled out so that it evaluates in
the kernel. -/
def qabs (q : ℚ) : ℚ := if q < 0 then -q else q

/-- `⌊log₂ |q|⌋` for a nonzero rational, computed from the bit lengths of
numerator and denominator with a correction step. -/
def ratLog2 (q : ℚ) : Int :=
  let l : Int := (Nat.log2 q.num.natAbs : Int) - (Nat.log2 q.den : Int)
  if qpow2 (l + 1) ≤ qabs q then l + 1
  else if qabs q < qpow2 l then l - 1
  else l

/-- Round to the nearest integer, ties to even (IEEE default rounding). -/
def roundNearestEven (x : ℚ) : Int :=
  let f : Int := x.floor
  let r : ℚ := x - f
  if r < 1 / 2 then f
  else if 1 / 2 < r then f + 1
  else if f % 2 = 0 then f else f + 1

/-- Round a rational to the nearest binary floating-point value with
`prec` mantissa bits (exact on every value already representable): the
native `int64 → double`, `double → float` conversions of the numeric
conversion paths.  Integers of magnitude below `2^prec` are exactly
representable, so they are returned unchanged by the first branch; other
values are rounded to nearest, ties to even. -/
def roundFloat (prec : Nat) (q : ℚ) : ℚ :=
  if q.den = 1 ∧ q.num.natAbs < 2 ^ prec then q
  else if q = 0 then 0
  else
    let e : Int := ratLog2 q - ((prec : Int) - 1)
    (roundNearestEven (q / qpow2 e) : ℚ) * qpow2 e

/-- The native `double → int64_t` conversion: truncation toward zero. -/
def ratTrunc (q : ℚ) : Int := Int.tdiv q.num (q.den : Int)

/-- `type->info() == targetType->info()` tail of `convert2`
(genericvalue.cpp:130-135): identity view on equal infos, otherwise the
empty/invalid `GenericValue`. -/
def convert2Tail (src : GenericValue) (targetType : Typ) (h : Heap) :
    Option ((Option GenericValue × Bool) × Heap) :=
  if src.type.ty = targetType.ty then some ((some src, false), h)
  else some ((none, false), h)

mutual

/-- Shallow embedding of `GenericValue::convert2`
(genericvalue.cpp:13-136).  The result is `none` on undefined behaviour
(ill-typed storage or fuel exhaustion); otherwise it is the returned
`std::pair<GenericValue, bool>` — with `none` standing for the
default-constructed invalid `GenericValue` — together with the heap. -/
def GenericValue.convert2 (env : Env) (fuel : Nat) (src : GenericValue)
    (targetType : Typ) (h : Heap) : Option ((Option GenericValue × Bool) × Heap) :=
  match fuel with
  | 0 => none
  | f + 1 =>
    -- if (type == targetType): descriptor-pointer comparison
    if src.type = targetType then some ((some src, false), h)
    else if src.type.ty.kind = targetType.ty.kind then
      -- switch(skind) with cases Float, Int, List; other kinds fall through
      match src.type.ty, targetType.ty with
      | .tfloat _, .tfloat dp =>
        match floatGet h src.value, initializeStorage h targetType with
        | some q, some (p, h1) =>
          some ((some ⟨targetType, p⟩, true), writeData h1 p (.df (roundFloat dp q)))
        | _, _ => none
      | .tint _, .tint dw =>
        match intGet h src.value, initializeStorage h targetType with
        | some v, some (p, h1) =>
          some ((some ⟨targetType, p⟩, true), writeData h1 p (.di (wrapInt dw v)))
        | _, _ => none
      | .tlist _, .tlist _ =>
        if src.value.off = 0 then
          match h.mem[src.value.base]?, initializeStorage h targetType with
          | some (.blist srcElemType selems), some (storage, h1) =>
            match h1.mem[storage.base]? with
            | some (.blist dstElemType _) =>
              -- needConvert = (srcElemType->info() != dstElemType->info())
              let needConvert : Bool := if srcElemType.ty = dstElemType.ty then false else true
              (convLoop env f src.value.base srcElemType dstElemType needConvert
                  storage selems 0 h1).map
                (fun h2 => ((some ⟨targetType, storage⟩, true), h2))
            | _ => none
          | _, _ => none
        else none
      | _, _ => convert2Rest env f src targetType h
    else convert2Rest env f src targetType h
termination_by (fuel, 0)

/-- The element loop of the List branch of `convert2`
(genericvalue.cpp:55-69): iterate the source elements; push each one
directly when no per-element conversion is needed, otherwise convert,
push, and destroy the conversion result when it owned new storage. -/
def convLoop (env : Env) (fuel : Nat) (srcBase : Nat) (srcElemType dstElemType : Typ)
    (needConvert : Bool) (dst : Ptr) (elems : List Data) (i : Nat) (h : Heap) :
    Option Heap :=
  match elems with
  | [] => some h
  | _ :: rest =>
    -- GenericValue val = *i : a view of source element i
    let val : GenericValue := ⟨srcElemType, ⟨srcBase, (i : Int) + 1⟩⟩
    if needConvert then
      match GenericValue.convert2 env fuel val dstElemType h with
      | some ((some c, owns), h1) =>
        match pushBack h1 dst c with
        | some h2 =>
          convLoop env fuel srcBase srcElemType dstElemType needConvert dst rest (i + 1)
            (if owns then c.destroy h2 else h2)
        | none => none
      | _ => none
    else
      match pushBack h dst val with
      | some h1 =>
        convLoop env fuel srcBase srcElemType dstElemType needConvert dst rest (i + 1) h1
      | none => none
termination_by (fuel, 2 + elems.length)

/-- The part of `convert2` after the same-kind switch falls through
(genericvalue.cpp:75-135): cross-numeric casts, the metavalue special
cases, the `GenericObject` unwrap, the inheritance view, and the final
`info()` identity / invalid-value tail. -/
def convert2Rest (env : Env) (fuel : Nat) (src : GenericValue) (targetType : Typ)
    (h : Heap) : Option ((Option GenericValue × Bool) × Heap) :=
  match src.type.ty, targetType.ty with
  | .tfloat _, .tint dw =>
    -- skind == Float && dkind == Int
    match floatGet h src.value, initializeStorage h targetType with
    | some q, some (p, h1) =>
      some ((some ⟨targetType, p⟩, true), writeData h1 p (.di (wrapInt dw (ratTrunc q))))
    | _, _ => none
  | .tint _, .tfloat dp =>
    -- skind == Int && dkind == Float
    match intGet h src.value, initializeStorage h targetType with
    | some v, some (p, h1) =>
      some ((some ⟨targetType, p⟩, true),
        writeData h1 p (.df (roundFloat dp (roundFloat 53 (v : ℚ)))))
    | _, _ => none
  | _, _ =>
    if targetType.ty = .tGenericValue then
      -- Target is metavalue: res.value = new GenericValue(*this); owns = false
      let r := h.alloc (.bbox src.type src.value)
      some ((some ⟨targetType, r.1⟩, false), r.2)
    else if src.type.ty = .tGenericValue then
      -- Source is metavalue: unwrap and recurse
      match readBox h src.value with
      | some (t, p) => GenericValue.convert2 env fuel ⟨t, p⟩ targetType h
      | none => none
    else if src.type.ty = .tGenericObject then
      -- Source is an erased object: unwrap to (obj->type, obj->value)
      match readBox h src.value with
      | some (t, p) => GenericValue.convert2 env fuel ⟨t, p⟩ targetType h
      | none => none
    else
      match src.type.ty with
      | .tobj oid =>
        -- skind == Type::Object: try inheritance
        let inheritOffset := env.inherits oid targetType
        if inheritOffset ≠ -1 then
          some ((some ⟨targetType, ⟨src.value.base, src.value.off + inheritOffset⟩⟩, false), h)
        else convert2Tail src targetType h
      | _ => convert2Tail src targetType h
termination_by (fuel, 1)

end

/-- The dynamic-intermediate conversion of last resort
(genericvalue.cpp:182-191): `type->toValue(value, temp)`; a warning is
logged when `temp` is invalid; the result is reconstructed from `temp`
regardless and reported as owning new storage. -/
def convertFallback (env : Env) (src : GenericValue) (targetType : Typ) (h : Heap) :
    Option ((Option GenericValue × Bool) × Heap) :=
  let temp := env.toValue src.type.ty h src.value
  let h1 := match temp with
    | .invalid => { h with warnings := h.warnings + 1 }
    | _ => h
  let r := env.fromValue targetType.ty temp h1
  some ((some ⟨targetType, r.1⟩, true), r.2)

/-- Shallow embedding of `GenericValue::convert`
(genericvalue.cpp:138-192): metavalue special cases, `GenericObject`
unwrap, `info()` identity, inheritance view, then the dynamic-intermediate
fallback. -/
def GenericValue.convert (env : Env) (fuel : Nat) (src : GenericValue)
    (targetType : Typ) (h : Heap) : Option ((Option GenericValue × Bool) × Heap) :=
  match fuel with
  | 0 => none
  | f + 1 =>
    if targetType.ty = .tGenericValue then
      let r := h.alloc (.bbox src.type src.value)
      some ((some ⟨targetType, r.1⟩, false), r.2)
    else if src.type.ty = .tGenericValue then
      match readBox h src.value with
      | some (t, p) => GenericValue.convert env f ⟨t, p⟩ targetType h
      | none => none
    else if src.type.ty = .tGenericObject then
      match readBox h src.value with
      | some (t, p) => GenericValue.convert env f ⟨t, p⟩ targetType h
      | none => none
    else if src.type.ty = targetType.ty then
      -- Same type (info() comparison)
      some ((some src, false), h)
    else
      match src.type.ty with
      | .tobj oid =>
        -- dynamic_cast<ObjectType*> succeeded: try inheritance
        let inheritOffset := env.inherits oid targetType
        if inheritOffset ≠ -1 then
          some ((some ⟨targetType, ⟨src.value.base, src.value.off + inheritOffset⟩⟩, false), h)
        else convertFallback env src targetType h
      | _ => convertFallback env src targetType h

/-- Modelled from the spec: `clone()` "deep-copies owned storage (and, for
list/object kinds, recursively clones contained values)" (spec §4.2); the
implementation is not among the sampled sources.  Cloning a view detaches
it: an element view copies the element, an inheritance view copies the
ancestor sub-object. -/
def cloneVal (fuel : Nat) (h : Heap) (v : GenericValue) : Option (GenericValue × Heap) :=
  match fuel with
  | 0 => none
  | f + 1 =>
    match h.mem[v.value.base]? with
    | some (.bdata d) =>
      if v.value.off = 0 then
        let r := h.alloc (.bdata d)
        some (⟨v.type, r.1⟩, r.2)
      else none
    | some (.blist et elems) =>
      if v.value.off = 0 then
        let r := h.alloc (.blist et elems)
        some (⟨v.type, r.1⟩, r.2)
      else
        match elems[(v.value.off - 1).toNat]? with
        | some d =>
          let r := h.alloc (.bdata d)
          some (⟨v.type, r.1⟩, r.2)
        | none => none
    | some (.bobj fields) =>
      if 0 ≤ v.value.off then
        let r := h.alloc (.bobj (fields.drop v.value.off.toNat))
        some (⟨v.type, r.1⟩, r.2)
      else none
    | some (.bbox t ip) =>
      match cloneVal f h ⟨t, ip⟩ with
      | some (inner, h1) =>
        let r := h1.alloc (.bbox inner.type inner.value)
        some (⟨v.type, r.1⟩, r.2)
      | none => none
    | none => none

/-- Shallow embedding of `GenericValue::convertCopy`
(genericvalue.cpp:194-201): convert, then clone exactly when the
conversion did not allocate (was only a view). -/
def GenericValue.convertCopy (env : Env) (fuel : Nat) (src : GenericValue)
    (targetType : Typ) (h : Heap) : Option (Option GenericValue × Heap) :=
  match GenericValue.convert env fuel src targetType h with
  | some ((r, true), h1) => some (r, h1)
  | some ((some gv, false), h1) =>
    match cloneVal fuel h1 gv with
    | some (g, h2) => some (some g, h2)
    | none => none
  | some ((none, false), _) => none
  | none => none

/-- Heap well-formedness: every boxed `(Type*, void*)` pair stored in the
heap points at an allocated block. -/
def WfHeap (h : Heap) : Prop :=
  ∀ (i : Nat) (t : Typ) (p : Ptr),
    h.mem[i]? = some (Block.bbox t p) → p.base < h.mem.length

/-- Heap evolution across a completed conversion: the heap only grows,
every pre-existing block is untouched, and the freed ledger only grows. -/
def HeapExtends (h h2 : Heap) : Prop :=
  h.mem.length ≤ h2.mem.length
    ∧ (∀ i, i < h.mem.length → h2.mem[i]? = h.mem[i]?)
    ∧ (∀ a, a ∈ h.freed → a ∈ h2.freed)

/-- Heap evolution across the element loop of the List branch: as
`HeapExtends`, except at the destination list block, which accumulates the
pushed elements. -/
def HeapExtendsExcept (L : Nat) (h h2 : Heap) : Prop :=
  h.mem.length ≤ h2.mem.length
    ∧ (∀ i, i < h.mem.length → i ≠ L → h2.mem[i]? = h.mem[i]?)
    ∧ (∀ a, a ∈ h.freed → a ∈ h2.freed)

/-! ## 4. Theorems -/

theorem join_cons (a : String) (l : List String) :
    String.join (a :: l) = a ++ String.join l := by
  have step : ∀ (m : List String) (s : String),
      m.foldl (fun acc x => acc ++ x) s = s ++ m.foldl (fun acc x => acc ++ x) "" := by
    intro m
    induction m with
    | nil => intro s; simp
    | cons x xs ih =>
      intro s
      simp only [List.foldl_cons]
      rw [ih (s ++ x), ih ("" ++ x)]
      simp [String.append_assoc]
  simp only [String.join, List.foldl_cons]
  rw [step l ("" ++ a)]
  simp

theorem foldl_append_tokens (f : CppType → String) (args : List CppType) (s : String) :
    args.foldl (fun acc t => acc ++ f t) s = s ++ String.join (args.map f) := by
  induction args generalizing s with
  | nil => simp [String.join]
  | cons a l ih =>
    simp only [List.foldl_cons, List.map_cons]
    rw [ih (s ++ f a), join_cons]
    simp [String.append_assoc]

theorem set_append_length {α : Type} (l : List α) (b0 b1 : α) :
    (l ++ [b0]).set l.length b1 = l ++ [b1] := by
  induction l with
  | nil => rfl
  | cons a t ih => simp [List.set, ih]

theorem ratTrunc_intCast (v : Int) : ratTrunc (v : ℚ) = v := by
  simp [ratTrunc]

theorem wrapInt_eq_self (w : Nat) (v : Int) (hw : 1 ≤ w)
    (hlo : -(2 ^ (w - 1)) ≤ v) (hhi : v < 2 ^ (w - 1)) : wrapInt w v = v := by
  have hpow : (2 : Int) ^ w = 2 ^ (w - 1) * 2 := by
    conv_lhs => rw [← Nat.sub_add_cancel hw]
    rw [pow_succ]
  have hnn : (0 : Int) ≤ v + 2 ^ (w - 1) := by omega
  have hlt : v + 2 ^ (w - 1) < 2 ^ w := by omega
  unfold wrapInt
  rw [Int.emod_eq_of_lt hnn hlt]
  omega

/-- The `skind == Int && dkind == Float` arm of `convert2`
(genericvalue.cpp:83-90): allocate target storage and write the
numerically cast scalar. -/
theorem convert2_cross_int_to_float (env : Env) (fuel : Nat) (w p iid1 iid2 : Nat)
    (src : GenericValue) (h : Heap) (v : Int)
    (hty : src.type = ⟨.tint w, iid1⟩) (hget : intGet h src.value = some v) :
    GenericValue.convert2 env (fuel + 1) src ⟨.tfloat p, iid2⟩ h
      = some ((some ⟨⟨.tfloat p, iid2⟩, ⟨h.mem.length, 0⟩⟩, true),
          { h with mem := h.mem ++ [.bdata (.df (roundFloat p (roundFloat 53 (v : ℚ))))] }) := by
  obtain ⟨sty, sval⟩ := src
  simp only [GenericValue.mk.injEq] at hty
  subst hty
  simp [GenericValue.convert2, convert2Rest, Ty.kind, initializeStorage, Heap.alloc,
    writeData, hget, set_append_length]

/-- The `skind == Float && dkind == Int` arm of `convert2`
(genericvalue.cpp:75-82). -/
theorem convert2_cross_float_to_int (env : Env) (fuel : Nat) (w p iid1 iid2 : Nat)
    (src : GenericValue) (h : Heap) (q : ℚ)
    (hty : src.type = ⟨.tfloat p, iid1⟩) (hget : floatGet h src.value = some q) :
    GenericValue.convert2 env (fuel + 1) src ⟨.tint w, iid2⟩ h
      = some ((some ⟨⟨.tint w, iid2⟩, ⟨h.mem.length, 0⟩⟩, true),
          { h with mem := h.mem ++ [.bdata (.di (wrapInt w (ratTrunc q)))] }) := by
  obtain ⟨sty, sval⟩ := src
  simp only [GenericValue.mk.injEq] at hty
  subst hty
  simp [GenericValue.convert2, convert2Rest, Ty.kind, initializeStorage, Heap.alloc,
    writeData, hget, set_append_length]

/-- Claim C7: for an integer `v` exactly representable in both numeric
types (`|v|` within the float type's exact-integer range — stated as
`roundFloat` fixpoints for the intermediate `double` and the target float
type — and within the `w`-bit signed integer range), converting the
Int-kind value to a Float-kind type and converting the result back to the
original Int-kind type yields `v` again; each cross-numeric-kind
conversion allocates fresh target storage (the heap grows by exactly the
new scalar block) and writes the numerically cast scalar into it. -/
theorem numeric_int_float_roundtrip (env : Env) (fuel : Nat) (w p iid1 iid2 iid3 : Nat)
    (v : Int) (h : Heap) (src : GenericValue)
    (hw : 1 ≤ w)
    (hty : src.type = ⟨.tint w, iid1⟩)
    (hget : intGet h src.value = some v)
    (hlo : -(2 ^ (w - 1) : Int) ≤ v) (hhi : v < 2 ^ (w - 1))
    (hr53 : roundFloat 53 (v : ℚ) = (v : ℚ))
    (hrp : roundFloat p (v : ℚ) = (v : ℚ)) :
    GenericValue.convert2 env (fuel + 1) src ⟨.tfloat p, iid2⟩ h
        = some ((some ⟨⟨.tfloat p, iid2⟩, ⟨h.mem.length, 0⟩⟩, true),
            { h with mem := h.mem ++ [.bdata (.df (v : ℚ))] })
      ∧ GenericValue.convert2 env (fuel + 1) ⟨⟨.tfloat p, iid2⟩, ⟨h.mem.length, 0⟩⟩
          ⟨.tint w, iid3⟩ { h with mem := h.mem ++ [.bdata (.df (v : ℚ))] }
        = some ((some ⟨⟨.tint w, iid3⟩, ⟨h.mem.length + 1, 0⟩⟩, true),
            { h with mem := h.mem ++ [.bdata (.df (v : ℚ)), .bdata (.di v)] })
      ∧ intGet { h with mem := h.mem ++ [.bdata (.df (v : ℚ)), .bdata (.di v)] }
          ⟨h.mem.length + 1, 0⟩ = some v := by
  have h1eq := convert2_cross_int_to_float env fuel w p iid1 iid2 src h v hty hget
  rw [hr53, hrp] at h1eq
  have hmidget : floatGet { h with mem := h.mem ++ [Block.bdata (.df (v : ℚ))] }
      ⟨h.mem.length, 0⟩ = some (v : ℚ) := by
    simp [floatGet, readData]
  have h2eq := convert2_cross_float_to_int env fuel w p iid2 iid3
    ⟨⟨.tfloat p, iid2⟩, ⟨h.mem.length, 0⟩⟩ { h with mem := h.mem ++ [.bdata (.df (v : ℚ))] }
    (v : ℚ) rfl hmidget
  rw [ratTrunc_intCast, wrapInt_eq_self w v hw hlo hhi] at h2eq
  simp only [List.length_append, List.length_cons, List.length_nil, List.append_assoc,
    List.cons_append, List.nil_append] at h2eq ⊢
  refine ⟨h1eq, h2eq, ?_⟩
  have hcell : (h.mem ++ [Block.bdata (Data.df (v : ℚ)), Block.bdata (Data.di v)])[h.mem.length + 1]?
      = some (Block.bdata (Data.di v)) := by
    rw [List.getElem?_append_right (by omega)]
    simp [Nat.add_sub_cancel_left]
  simp [intGet, readData, hcell]

/-- Witness for C7 at `v = 3`, `w = 32`, `p = 53` (double): the roundtrip
through the two cross-numeric conversions yields 3 again. -/
theorem numeric_int_float_roundtrip_witness :
    ((1 : Nat) ≤ 32 ∧ -(2 ^ 31 : Int) ≤ 3 ∧ (3 : Int) < 2 ^ 31
        ∧ roundFloat 53 ((3 : Int) : ℚ) = ((3 : Int) : ℚ)
        ∧ intGet ⟨[.bdata (.di 3)], [], 0⟩ ⟨0, 0⟩ = some 3)
      ∧ (GenericValue.convert2 envTriv 1 ⟨⟨.tint 32, 0⟩, ⟨0, 0⟩⟩ ⟨.tfloat 53, 5⟩
            ⟨[.bdata (.di 3)], [], 0⟩
          = some ((some ⟨⟨.tfloat 53, 5⟩, ⟨1, 0⟩⟩, true),
              ⟨[.bdata (.di 3), .bdata (.df ((3 : Int) : ℚ))], [], 0⟩)
        ∧ GenericValue.convert2 envTriv 1 ⟨⟨.tfloat 53, 5⟩, ⟨1, 0⟩⟩ ⟨.tint 32, 7⟩
            ⟨[.bdata (.di 3), .bdata (.df ((3 : Int) : ℚ))], [], 0⟩
          = some ((some ⟨⟨.tint 32, 7⟩, ⟨2, 0⟩⟩, true),
              ⟨[.bdata (.di 3), .bdata (.df ((3 : Int) : ℚ)), .bdata (.di 3)], [], 0⟩)
        ∧ intGet ⟨[.bdata (.di 3), .bdata (.df ((3 : Int) : ℚ)), .bdata (.di 3)], [], 0⟩
            ⟨2, 0⟩ = some 3) :=
  ⟨⟨by decide, by decide, by decide, by decide, rfl⟩,
    numeric_int_float_roundtrip envTriv 0 32 53 0 5 7 3 ⟨[.bdata (.di 3)], [], 0⟩
      ⟨⟨.tint 32, 0⟩, ⟨0, 0⟩⟩ (by decide) rfl rfl (by decide) (by decide)
      (by decide) (by decide)⟩


/-- `readBox` only succeeds on a heap box, and in a well-formed heap the
boxed handle points at an allocated block. -/
theorem readBox_wf (h : Heap) (q : Ptr) (t : Typ) (p : Ptr)
    (hwf : WfHeap h) (hrb : readBox h q = some (t, p)) : p.base < h.mem.length := by
  unfold readBox at hrb
  cases hm : h.mem[q.base]? with
  | none => simp [hm] at hrb
  | some b =>
    cases b with
    | bdata d => simp [hm] at hrb
    | blist a c => simp [hm] at hrb
    | bobj fl => simp [hm] at hrb
    | bbox t2 p2 =>
      simp [hm] at hrb
      obtain ⟨h0, ht, hp⟩ := hrb
      subst ht hp
      exact hwf q.base _ _ hm

/-- Every `owns_new_storage = false` result of the fall-through part of
`convert2` leaves the heap unchanged and aliases pre-existing storage,
provided the target is not the metavalue type. -/
theorem convert2Rest_false_no_alloc (env : Env) (tgt : Typ) (h : Heap) (f : Nat)
    (hwf : WfHeap h) (htgt : tgt.ty ≠ .tGenericValue)
    (ih : ∀ (src : GenericValue), src.value.base < h.mem.length →
      ∀ (res : Option GenericValue) (h2 : Heap),
        GenericValue.convert2 env f src tgt h = some ((res, false), h2) →
          h2 = h ∧ ∀ gv, res = some gv → gv.value.base < h.mem.length) :
    ∀ (src : GenericValue), src.value.base < h.mem.length →
      ∀ (res : Option GenericValue) (h2 : Heap),
        convert2Rest env f src tgt h = some ((res, false), h2) →
          h2 = h ∧ ∀ gv, res = some gv → gv.value.base < h.mem.length := by
  intro src hsrc res h2 hconv
  rw [convert2Rest] at hconv
  split at hconv
  · -- Float -> Int cross conversion: owns = true, contradiction
    split at hconv <;> simp_all
  · -- Int -> Float cross conversion: owns = true, contradiction
    split at hconv <;> simp_all
  · -- the non-numeric tail
    split at hconv
    · -- target is metavalue: excluded by htgt
      simp_all
    · split at hconv
      · -- source is metavalue: unwrap and recurse
        split at hconv
        case _ t p heq =>
          exact ih ⟨t, p⟩ (readBox_wf h src.value t p hwf heq) res h2 hconv
        case _ => cases hconv
      · split at hconv
        · -- source is GenericObject: unwrap and recurse
          split at hconv
          case _ t p heq =>
            exact ih ⟨t, p⟩ (readBox_wf h src.value t p hwf heq) res h2 hconv
          case _ => cases hconv
        · -- object inheritance / info-equality tail
          split at hconv
          case _ oid heq =>
            simp only [] at hconv
            split at hconv
            · -- inheritance view: aliases the source storage
              cases hconv
              exact ⟨rfl, fun gv hgv => by cases hgv; simpa using hsrc⟩
            · rw [convert2Tail] at hconv
              split at hconv
              · cases hconv
                exact ⟨rfl, fun gv hgv => by cases hgv; exact hsrc⟩
              · cases hconv
                exact ⟨rfl, fun gv hgv => by cases hgv⟩
          case _ =>
            rw [convert2Tail] at hconv
            split at hconv
            · cases hconv
              exact ⟨rfl, fun gv hgv => by cases hgv; exact hsrc⟩
            · cases hconv
              exact ⟨rfl, fun gv hgv => by cases hgv⟩

/-- `convert2` never allocates on an `owns_new_storage = false` result
when the target is not the metavalue type. -/
theorem convert2_false_no_alloc (env : Env) (tgt : Typ) (h : Heap)
    (hwf : WfHeap h) (htgt : tgt.ty ≠ .tGenericValue) :
    ∀ (fuel : Nat) (src : GenericValue), src.value.base < h.mem.length →
      ∀ (res : Option GenericValue) (h2 : Heap),
        GenericValue.convert2 env fuel src tgt h = some ((res, false), h2) →
          h2 = h ∧ ∀ gv, res = some gv → gv.value.base < h.mem.length := by
  intro fuel
  induction fuel with
  | zero =>
    intro src hsrc res h2 hconv
    simp [GenericValue.convert2] at hconv
  | succ f ih =>
    intro src hsrc res h2 hconv
    rw [GenericValue.convert2] at hconv
    split at hconv
    · cases hconv
      exact ⟨rfl, fun gv hgv => by cases hgv; exact hsrc⟩
    · split at hconv
      · split at hconv
        · -- Float/Float: owns = true
          split at hconv <;> simp_all
        · -- Int/Int: owns = true
          split at hconv <;> simp_all
        · -- List/List: owns = true
          repeat any_goals split at hconv
          all_goals simp_all [Option.map_eq_some']
        · exact convert2Rest_false_no_alloc env tgt h f hwf htgt ih src hsrc res h2 hconv
      · exact convert2Rest_false_no_alloc env tgt h f hwf htgt ih src hsrc res h2 hconv

/-- `convert` never allocates on an `owns_new_storage = false` result when
the target is not the metavalue type. -/
theorem convert_false_no_alloc (env : Env) (tgt : Typ) (h : Heap)
    (hwf : WfHeap h) (htgt : tgt.ty ≠ .tGenericValue) :
    ∀ (fuel : Nat) (src : GenericValue), src.value.base < h.mem.length →
      ∀ (res : Option GenericValue) (h2 : Heap),
        GenericValue.convert env fuel src tgt h = some ((res, false), h2) →
          h2 = h ∧ ∀ gv, res = some gv → gv.value.base < h.mem.length := by
  intro fuel
  induction fuel with
  | zero =>
    intro src hsrc res h2 hconv
    simp [GenericValue.convert] at hconv
  | succ f ih =>
    intro src hsrc res h2 hconv
    rw [GenericValue.convert] at hconv
    split at hconv
    · -- target is metavalue: excluded by htgt
      simp_all
    · split at hconv
      · -- source is metavalue
        split at hconv
        case _ t p heq =>
          exact ih ⟨t, p⟩ (readBox_wf h src.value t p hwf heq) res h2 hconv
        case _ => cases hconv
      · split at hconv
        · -- source is GenericObject
          split at hconv
          case _ t p heq =>
            exact ih ⟨t, p⟩ (readBox_wf h src.value t p hwf heq) res h2 hconv
          case _ => cases hconv
        · split at hconv
          · -- same info: identity view
            cases hconv
            exact ⟨rfl, fun gv hgv => by cases hgv; exact hsrc⟩
          · split at hconv
            case _ oid heq =>
              simp only [] at hconv
              split at hconv
              · -- inheritance view
                cases hconv
                exact ⟨rfl, fun gv hgv => by cases hgv; simpa using hsrc⟩
              · -- dynamic fallback: owns = true
                rw [convertFallback] at hconv
                simp_all
            case _ =>
              rw [convertFallback] at hconv
              simp_all

/-- Claim C2 (counterexample): converting an `int` value to the metavalue
(`GenericValue`) target type returns `owns_new_storage = false`, yet a
fresh heap block (the `new GenericValue(*this)` wrapper box at address 1,
beyond the initial heap of length 1) was allocated and is the returned
value's storage handle: the returned storage does not alias pre-existing
storage, refuting the claim as stated for both `convert2` and
`convert`. -/
theorem convert2_metavalue_target_allocates_unowned :
    (GenericValue.convert2 envTriv 1 ⟨⟨.tint 32, 0⟩, ⟨0, 0⟩⟩ (canonTyp .tGenericValue)
        ⟨[.bdata (.di 5)], [], 0⟩
      = some ((some ⟨canonTyp .tGenericValue, ⟨1, 0⟩⟩, false),
          ⟨[.bdata (.di 5), .bbox ⟨.tint 32, 0⟩ ⟨0, 0⟩], [], 0⟩))
    ∧ (GenericValue.convert envTriv 1 ⟨⟨.tint 32, 0⟩, ⟨0, 0⟩⟩ (canonTyp .tGenericValue)
        ⟨[.bdata (.di 5)], [], 0⟩
      = some ((some ⟨canonTyp .tGenericValue, ⟨1, 0⟩⟩, false),
          ⟨[.bdata (.di 5), .bbox ⟨.tint 32, 0⟩ ⟨0, 0⟩], [], 0⟩))
    ∧ (⟨[.bdata (.di 5)], [], 0⟩ : Heap).mem.length = 1 := by
  refine ⟨?_, ?_, rfl⟩
  · simp [GenericValue.convert2, convert2Rest, canonTyp, Ty.kind, Heap.alloc]
  · simp [GenericValue.convert, canonTyp, Heap.alloc]

/-- Claim C2 (amended): for every conversion through `convert2` or
`convert` whose target is not the metavalue (`GenericValue`) type, an
`owns_new_storage = false` result allocated nothing — the heap is
returned unchanged and the returned value's storage handle aliases
already-existing storage (a block allocated before the call, the source's
block possibly offset); the metavalue-target special case is the one
exception, allocating a wrapper box yet still reporting `false`. -/
theorem convert_view_results_do_not_allocate (env : Env) (fuel : Nat)
    (src : GenericValue) (tgt : Typ) (h : Heap) (res : Option GenericValue) (h2 : Heap)
    (hwf : WfHeap h) (htgt : tgt.ty ≠ .tGenericValue)
    (hsrc : src.value.base < h.mem.length) :
    (GenericValue.convert2 env fuel src tgt h = some ((res, false), h2) →
        h2 = h ∧ ∀ gv, res = some gv → gv.value.base < h.mem.length)
      ∧ (GenericValue.convert env fuel src tgt h = some ((res, false), h2) →
        h2 = h ∧ ∀ gv, res = some gv → gv.value.base < h.mem.length) :=
  ⟨convert2_false_no_alloc env tgt h hwf htgt fuel src hsrc res h2,
   convert_false_no_alloc env tgt h hwf htgt fuel src hsrc res h2⟩

/-- Witness for the amended C2 at the identity conversion of an `int`
value: the result is a view of the source block and the heap is
untouched. -/
theorem convert_view_results_do_not_allocate_witness :
    (WfHeap ⟨[.bdata (.di 5)], [], 0⟩
        ∧ (⟨.tint 32, 0⟩ : Typ).ty ≠ .tGenericValue ∧ (0 : Nat) < 1)
      ∧ ((⟨[.bdata (.di 5)], [], 0⟩ : Heap) = ⟨[.bdata (.di 5)], [], 0⟩
        ∧ ∀ gv, some (⟨⟨.tint 32, 0⟩, ⟨0, 0⟩⟩ : GenericValue) = some gv →
            gv.value.base < 1) := by
  have hwf : WfHeap ⟨[.bdata (.di 5)], [], 0⟩ := by
    intro i t p hc
    rcases i with _ | i <;> simp at hc
  refine ⟨⟨hwf, by decide, by decide⟩, ?_⟩
  exact (convert_view_results_do_not_allocate envTriv 1 ⟨⟨.tint 32, 0⟩, ⟨0, 0⟩⟩
    ⟨.tint 32, 0⟩ ⟨[.bdata (.di 5)], [], 0⟩ (some ⟨⟨.tint 32, 0⟩, ⟨0, 0⟩⟩)
    ⟨[.bdata (.di 5)], [], 0⟩ hwf (by decide) (by decide)).1
    (by simp [GenericValue.convert2])


/-- Claim C5: when both source and target kinds are Object and the source's
concrete type inherits from the target type (`inherits() != -1`), both
`convert2` and `convert` return a non-owning view (`owns_new_storage =
false`) whose storage handle is the source handle adjusted by the returned
byte offset, with no allocation or copy (the heap is returned unchanged);
reading any field through the view observes the same value as reading the
offset-adjusted field through the source handle; and when `inherits()`
reports the sentinel `-1` the inheritance step is skipped (`convert2`
falls through to the invalid result for distinct infos). -/
theorem convert_object_inheritance_view (env : Env) (fuel : Nat)
    (src : GenericValue) (tgt : Typ) (h : Heap) (oid oid2 : Nat)
    (hsty : src.type.ty = .tobj oid) (htgtty : tgt.ty = .tobj oid2)
    (hinfo : src.type.ty ≠ tgt.ty) :
    (env.inherits oid tgt ≠ -1 →
        GenericValue.convert2 env (fuel + 1) src tgt h
          = some ((some ⟨tgt, ⟨src.value.base, src.value.off + env.inherits oid tgt⟩⟩,
              false), h))
      ∧ (env.inherits oid tgt ≠ -1 →
        GenericValue.convert env (fuel + 1) src tgt h
          = some ((some ⟨tgt, ⟨src.value.base, src.value.off + env.inherits oid tgt⟩⟩,
              false), h))
      ∧ (∀ j : Int,
        readField h ⟨src.value.base, src.value.off + env.inherits oid tgt⟩ j
          = readField h src.value (env.inherits oid tgt + j))
      ∧ (env.inherits oid tgt = -1 →
        GenericValue.convert2 env (fuel + 1) src tgt h = some ((none, false), h)) := by
  obtain ⟨⟨sty0, si⟩, sv⟩ := src
  obtain ⟨tty0, ti⟩ := tgt
  simp only at hsty htgtty
  subst hsty htgtty
  have hoid : oid ≠ oid2 := by simpa using hinfo
  refine ⟨?_, ?_, ?_, ?_⟩
  · intro hne
    simp [GenericValue.convert2, convert2Rest, convert2Tail, Ty.kind, hoid, hne]
  · intro hne
    simp [GenericValue.convert, Ty.kind, hoid, hne]
  · intro j
    simp [readField, Int.add_assoc]
  · intro hm1
    simp [GenericValue.convert2, convert2Rest, convert2Tail, Ty.kind, hoid, hm1]

/-- Witness for C5: a `Derived` (object type 0, fields `[10, 20, 30]`)
converted to `Base` (object type 1, at offset 1) yields the view
`(base 0, off 1)` with the heap untouched, and field 0 through the view is
field 1 through the source (`20`). -/
theorem convert_object_inheritance_view_witness :
    ((⟨⟨.tobj 0, 0⟩, ⟨0, 0⟩⟩ : GenericValue).type.ty = .tobj 0
        ∧ (⟨.tobj 1, 0⟩ : Typ).ty = .tobj 1
        ∧ Ty.tobj 0 ≠ Ty.tobj 1
        ∧ envInh.inherits 0 ⟨.tobj 1, 0⟩ = 1)
      ∧ GenericValue.convert2 envInh 1 ⟨⟨.tobj 0, 0⟩, ⟨0, 0⟩⟩ ⟨.tobj 1, 0⟩
          ⟨[.bobj [.di 10, .di 20, .di 30]], [], 0⟩
        = some ((some ⟨⟨.tobj 1, 0⟩, ⟨0, 0 + envInh.inherits 0 ⟨.tobj 1, 0⟩⟩⟩, false),
            ⟨[.bobj [.di 10, .di 20, .di 30]], [], 0⟩)
      ∧ readField ⟨[.bobj [.di 10, .di 20, .di 30]], [], 0⟩
          ⟨0, 0 + envInh.inherits 0 ⟨.tobj 1, 0⟩⟩ 0 = some (.di 20)
      ∧ readField ⟨[.bobj [.di 10, .di 20, .di 30]], [], 0⟩ ⟨0, 0⟩ 1 = some (.di 20) := by
  refine ⟨⟨rfl, rfl, by decide, rfl⟩, ?_, rfl, rfl⟩
  exact (convert_object_inheritance_view envInh 0 ⟨⟨.tobj 0, 0⟩, ⟨0, 0⟩⟩ ⟨.tobj 1, 0⟩
    ⟨[.bobj [.di 10, .di 20, .di 30]], [], 0⟩ 0 1 rfl rfl (by decide)).1 (by decide)

/-- Claim C6: a `convert` call that reaches the dynamic-intermediate
fallback with a source that fails to produce a valid dynamic intermediate
(`toValue` yields `Invalid`) logs a warning (the warning counter of the
heap handed to `fromValue` is incremented) but still returns a value
constructed by `fromValue` from that invalid intermediate with
`owns_new_storage = true` — it neither aborts nor returns the
invalid/empty `GenericValue`. -/
theorem convert_dynamic_fallback_best_effort (env : Env) (fuel : Nat)
    (src : GenericValue) (tgt : Typ) (h : Heap)
    (htgt : tgt.ty ≠ .tGenericValue)
    (hsgv : src.type.ty ≠ .tGenericValue)
    (hsgo : src.type.ty ≠ .tGenericObject)
    (hinfo : src.type.ty ≠ tgt.ty)
    (hobj : ∀ oid, src.type.ty = .tobj oid → env.inherits oid tgt = -1)
    (hinv : env.toValue src.type.ty h src.value = .invalid) :
    GenericValue.convert env (fuel + 1) src tgt h
      = some ((some ⟨tgt, (env.fromValue tgt.ty .invalid
            { h with warnings := h.warnings + 1 }).1⟩, true),
          (env.fromValue tgt.ty .invalid { h with warnings := h.warnings + 1 }).2) := by
  rw [GenericValue.convert]
  cases hst : src.type.ty with
  | tGenericValue => exact absurd hst hsgv
  | tGenericObject => exact absurd hst hsgo
  | tobj oid =>
    have hoff := hobj oid hst
    rw [hst] at hinfo hinv
    simp [htgt, hinfo, hst, hoff, convertFallback, hinv]
  | tint w =>
    rw [hst] at hinfo hinv
    simp [htgt, hinfo, hst, convertFallback, hinv]
  | tfloat p =>
    rw [hst] at hinfo hinv
    simp [htgt, hinfo, hst, convertFallback, hinv]
  | tstr =>
    rw [hst] at hinfo hinv
    simp [htgt, hinfo, hst, convertFallback, hinv]
  | tlist e =>
    rw [hst] at hinfo hinv
    simp [htgt, hinfo, hst, convertFallback, hinv]

/-- Witness for C6: converting a string value to `int` under the trivial
environment (whose `toValue` always fails) still returns an owning value
built by `fromValue`, with the warning counter bumped from 0 to 1. -/
theorem convert_dynamic_fallback_best_effort_witness :
    ((Ty.tint 32 ≠ Ty.tGenericValue) ∧ (Ty.tstr ≠ Ty.tint 32)
        ∧ envTriv.toValue .tstr ⟨[.bdata (.ds "x")], [], 0⟩ ⟨0, 0⟩ = .invalid)
      ∧ GenericValue.convert envTriv 1 ⟨⟨.tstr, 0⟩, ⟨0, 0⟩⟩ ⟨.tint 32, 0⟩
          ⟨[.bdata (.ds "x")], [], 0⟩
        = some ((some ⟨⟨.tint 32, 0⟩, ⟨0, 0⟩⟩, true), ⟨[.bdata (.ds "x")], [], 1⟩) := by
  refine ⟨⟨by decide, by decide, rfl⟩, ?_⟩
  exact convert_dynamic_fallback_best_effort envTriv 0 ⟨⟨.tstr, 0⟩, ⟨0, 0⟩⟩ ⟨.tint 32, 0⟩
    ⟨[.bdata (.ds "x")], [], 0⟩ (by decide) (by decide) (by decide) (by decide)
    (fun oid hoid => by cases hoid) rfl


/-- Claim C4 (counterexample): the round-trip identity fails for the
internal wrapper types.  For a `GenericObject`-typed `v`, `convert`
unwraps to the inner object *before* the same-info identity check
(genericvalue.cpp:153-159 precedes line 164), finds no inheritance
relation between the concrete object type and `typeOf<GenericObject>`,
and lands in the lines 182-191 best-effort fallback: `convertCopy(T)`
returns the environment-fabricated value (here a zero scalar, with a
warning logged) which is not value-equal to `v` (its data `di 0` differs
from the wrapped object's `dobj [di 42]`).  For a `GenericValue`-typed
`v`, the metavalue-target special case wraps `v` in one more box and the
clone deep-copies that: the result's storage is a box whose stored type
tag is the metavalue type itself, while `v`'s own storage box stores the
inner concrete type — the result is a double wrapping, not a copy of
`v`'s storage. -/
theorem convertCopy_wrapper_types_not_value_equal :
    (GenericValue.convertCopy envCex 2 ⟨⟨.tGenericObject, 0⟩, ⟨0, 0⟩⟩ ⟨.tGenericObject, 0⟩
          ⟨[.bbox ⟨.tobj 0, 0⟩ ⟨1, 0⟩, .bobj [.di 42]], [], 0⟩
        = some (some ⟨⟨.tGenericObject, 0⟩, ⟨2, 0⟩⟩,
            ⟨[.bbox ⟨.tobj 0, 0⟩ ⟨1, 0⟩, .bobj [.di 42], .bdata (.di 0)], [], 1⟩)
      ∧ readData ⟨[.bbox ⟨.tobj 0, 0⟩ ⟨1, 0⟩, .bobj [.di 42], .bdata (.di 0)], [], 1⟩ ⟨2, 0⟩
          = some (.di 0)
      ∧ readData ⟨[.bbox ⟨.tobj 0, 0⟩ ⟨1, 0⟩, .bobj [.di 42]], [], 0⟩ ⟨1, 0⟩
          = some (.dobj [.di 42])
      ∧ Data.di 0 ≠ Data.dobj [.di 42])
    ∧ (GenericValue.convertCopy envCex 3 ⟨⟨.tGenericValue, 0⟩, ⟨0, 0⟩⟩ ⟨.tGenericValue, 0⟩
          ⟨[.bbox ⟨.tint 32, 0⟩ ⟨1, 0⟩, .bdata (.di 5)], [], 0⟩
        = some (some ⟨⟨.tGenericValue, 0⟩, ⟨5, 0⟩⟩,
            ⟨[.bbox ⟨.tint 32, 0⟩ ⟨1, 0⟩, .bdata (.di 5), .bbox ⟨.tGenericValue, 0⟩ ⟨0, 0⟩,
              .bdata (.di 5), .bbox ⟨.tint 32, 0⟩ ⟨3, 0⟩, .bbox ⟨.tGenericValue, 0⟩ ⟨4, 0⟩],
              [], 0⟩)
      ∧ readBox ⟨[.bbox ⟨.tint 32, 0⟩ ⟨1, 0⟩, .bdata (.di 5), .bbox ⟨.tGenericValue, 0⟩ ⟨0, 0⟩,
            .bdata (.di 5), .bbox ⟨.tint 32, 0⟩ ⟨3, 0⟩, .bbox ⟨.tGenericValue, 0⟩ ⟨4, 0⟩],
            [], 0⟩ ⟨5, 0⟩
          = some (⟨.tGenericValue, 0⟩, ⟨4, 0⟩)
      ∧ readBox ⟨[.bbox ⟨.tint 32, 0⟩ ⟨1, 0⟩, .bdata (.di 5)], [], 0⟩ ⟨0, 0⟩
          = some (⟨.tint 32, 0⟩, ⟨1, 0⟩)
      ∧ (⟨.tGenericValue, 0⟩ : Typ) ≠ ⟨.tint 32, 0⟩) := by
  refine ⟨⟨?_, rfl, rfl, by intro hh; cases hh⟩, ⟨?_, rfl, rfl, by decide⟩⟩
  · simp [GenericValue.convertCopy, GenericValue.convert, readBox, convertFallback, envCex,
      Heap.alloc]
  · simp [GenericValue.convertCopy, GenericValue.convert, readBox, cloneVal, Heap.alloc]

/-- Claim C4 (amended): for every ErasedValue `v` holding a readable value
`d` whose TypeDescriptor `T` is not one of the internal wrapper metatypes
(`typeOf<GenericValue>`, `typeOf<GenericObject>` — the counterexample's
failing cases), `v.convertCopy(T)` — for any descriptor instance of the
same `info()` — returns an owned, independently destroyable value that is
value-equal to `v`: `convert` reports the identity view with
`owns_new_storage = false`, so `convertCopy` clones exactly then, and the
result lives in one freshly allocated block whose address differs from
`v`'s and which reads back the same data `d`.  Views are covered too: an
element view clones its element, an object view clones the ancestor
sub-object it designates. -/
theorem convertCopy_roundtrip_identity (env : Env) (fuel : Nat) (src : GenericValue)
    (tgt : Typ) (h : Heap) (d : Data)
    (htgt : tgt.ty = src.type.ty)
    (hgv : src.type.ty ≠ .tGenericValue) (hgo : src.type.ty ≠ .tGenericObject)
    (hread : readData h src.value = some d) :
    ∃ h2,
      GenericValue.convertCopy env (fuel + 1) src tgt h
          = some (some ⟨src.type, ⟨h.mem.length, 0⟩⟩, h2)
        ∧ h2.mem.length = h.mem.length + 1
        ∧ readData h2 ⟨h.mem.length, 0⟩ = some d
        ∧ src.value.base ≠ h.mem.length := by
  have hconv : GenericValue.convert env (fuel + 1) src tgt h
      = some ((some src, false), h) := by
    rw [GenericValue.convert]
    simp [htgt, hgv, hgo]
  rw [GenericValue.convertCopy, hconv]
  unfold readData at hread
  cases hm : h.mem[src.value.base]? with
  | none => rw [hm] at hread; cases hread
  | some b =>
    have hlt : src.value.base < h.mem.length := by
      by_contra hge
      rw [List.getElem?_eq_none (Nat.le_of_not_lt hge)] at hm
      cases hm
    cases b with
    | bbox t p =>
      simp only [hm] at hread
      cases hread
    | bdata dd =>
      simp only [hm] at hread
      by_cases hoff : src.value.off = 0
      · rw [if_pos hoff] at hread
        cases hread
        refine ⟨{ h with mem := h.mem ++ [.bdata d] }, ?_, by simp, ?_, Nat.ne_of_lt hlt⟩
        · simp [cloneVal, hm, hoff, Heap.alloc]
        · simp [readData, List.getElem?_concat_length]
      · rw [if_neg hoff] at hread
        cases hread
    | blist et elems =>
      simp only [hm] at hread
      by_cases hoff : src.value.off = 0
      · rw [if_pos hoff] at hread
        cases hread
        refine ⟨{ h with mem := h.mem ++ [.blist et elems] }, ?_, by simp, ?_, Nat.ne_of_lt hlt⟩
        · simp [cloneVal, hm, hoff, Heap.alloc]
        · simp [readData, List.getElem?_concat_length]
      · rw [if_neg hoff] at hread
        refine ⟨{ h with mem := h.mem ++ [.bdata d] }, ?_, by simp, ?_, Nat.ne_of_lt hlt⟩
        · simp only [Int.pred_toNat] at hread
          simp [cloneVal, hm, hoff, hread, Heap.alloc]
        · simp [readData, List.getElem?_concat_length]
    | bobj fields =>
      simp only [hm] at hread
      by_cases hoff : 0 ≤ src.value.off
      · rw [if_pos hoff] at hread
        cases hread
        refine ⟨{ h with mem := h.mem ++ [.bobj (fields.drop src.value.off.toNat)] },
          ?_, by simp, ?_, Nat.ne_of_lt hlt⟩
        · simp [cloneVal, hm, hoff, Heap.alloc]
        · simp [readData, List.getElem?_concat_length]
      · rw [if_neg hoff] at hread
        cases hread

/-- Witness for the amended C4: `convertCopy` of an `int` value 7 to
another descriptor instance of its own type clones the scalar block; the
copy sits at the fresh address 1, the source at 0, and both read back the
same data. -/
theorem convertCopy_roundtrip_identity_witness :
    ((⟨.tint 32, 9⟩ : Typ).ty = (⟨⟨.tint 32, 0⟩, ⟨0, 0⟩⟩ : GenericValue).type.ty
        ∧ Ty.tint 32 ≠ .tGenericValue ∧ Ty.tint 32 ≠ .tGenericObject
        ∧ readData ⟨[.bdata (.di 7)], [], 0⟩ ⟨0, 0⟩ = some (.di 7))
      ∧ (∃ h2,
          GenericValue.convertCopy envTriv 1 ⟨⟨.tint 32, 0⟩, ⟨0, 0⟩⟩ ⟨.tint 32, 9⟩
              ⟨[.bdata (.di 7)], [], 0⟩
            = some (some ⟨⟨.tint 32, 0⟩, ⟨1, 0⟩⟩, h2)
          ∧ h2.mem.length = 2
          ∧ readData h2 ⟨1, 0⟩ = some (.di 7)
          ∧ (0 : Nat) ≠ 1) :=
  ⟨⟨rfl, by decide, by decide, rfl⟩,
    convertCopy_roundtrip_identity envTriv 0 ⟨⟨.tint 32, 0⟩, ⟨0, 0⟩⟩ ⟨.tint 32, 9⟩
      ⟨[.bdata (.di 7)], [], 0⟩ (.di 7) rfl (by decide) (by decide) rfl⟩



theorem list_set_self {α : Type} (l : List α) (i : Nat) (a : α) (hget : l[i]? = some a) :
    l.set i a = l := by
  apply List.ext_getElem?
  intro j
  by_cases hj : i = j
  · subst hj
    rw [List.getElem?_set_eq_of_lt]
    · exact hget.symm
    · by_contra hge
      rw [List.getElem?_eq_none (Nat.le_of_not_lt hge)] at hget
      cases hget
  · exact List.getElem?_set_ne hj

/-- The `needConvert = false` loop: each source element is pushed directly;
the only heap effect is extending the destination list block. -/
theorem convLoop_copy (env : Env) (fuel : Nat) (base L : Nat)
    (es dt ct : Typ) (full : List Data) :
    ∀ (suf pre : List Data) (h1 : Heap), full = pre ++ suf →
      h1.mem[base]? = some (.blist es full) →
      h1.mem[L]? = some (.blist ct pre) →
      base ≠ L → L < h1.mem.length →
      convLoop env fuel base es dt false ⟨L, 0⟩ suf pre.length h1
        = some { h1 with mem := h1.mem.set L (.blist ct (pre ++ suf)) } := by
  intro suf
  induction suf with
  | nil =>
    intro pre h1 hfull hbase hdst hne hlt
    rw [convLoop]
    simp [list_set_self h1.mem L _ (by simpa using hdst)]
  | cons d rest ih =>
    intro pre h1 hfull hbase hdst hne hlt
    rw [convLoop]
    have hread : readData h1 ⟨base, (pre.length : Int) + 1⟩ = some d := by
      simp only [readData, hbase]
      rw [if_neg (by omega)]
      have hidx : ((pre.length : Int) + 1 - 1).toNat = pre.length := by omega
      rw [hidx, hfull, List.getElem?_append_right (Nat.le_refl _)]
      simp
    have hpd : pushData h1 ⟨es, ⟨base, (pre.length : Int) + 1⟩⟩ = some d := by
      simp only [pushData, hbase]
      exact hread
    have hpush : pushBack h1 ⟨L, 0⟩ ⟨es, ⟨base, (pre.length : Int) + 1⟩⟩
        = some { h1 with mem := h1.mem.set L (.blist ct (pre ++ [d])) } := by
      simp only [pushBack, hdst, hpd]
    simp only [hpush]
    have hstep := ih (pre ++ [d])
      { h1 with mem := h1.mem.set L (.blist ct (pre ++ [d])) }
      (by simpa using hfull)
      (by simpa [List.getElem?_set_ne (fun hh => hne hh.symm)] using hbase)
      (by simp [List.getElem?_set_eq_of_lt _ hlt])
      hne (by simpa using hlt)
    simp only [List.length_append, List.length_cons, List.length_nil] at hstep
    rw [show pre.length + (0 + 1) = pre.length + 1 from by omega] at hstep ⊢
    rw [hstep]
    simp [List.set_set, List.append_assoc]



theorem convert2_list_same_elem (env : Env) (h : Heap) (base : Nat) (e : Ty)
    (et : Typ) (iidS iidD : Nat) (ds : List Data)
    (hne : iidS ≠ iidD) (het : et.ty = e)
    (hb : h.mem[base]? = some (.blist et ds)) :
    GenericValue.convert2 env 1 ⟨⟨.tlist e, iidS⟩, ⟨base, 0⟩⟩ ⟨.tlist e, iidD⟩ h
      = some ((some ⟨⟨.tlist e, iidD⟩, ⟨h.mem.length, 0⟩⟩, true),
          { h with mem := h.mem ++ [.blist (canonTyp e) ds] }) := by
  have hblt : base < h.mem.length := by
    by_contra hge
    rw [List.getElem?_eq_none (Nat.le_of_not_lt hge)] at hb
    cases hb
  have hb1 : (h.mem ++ [Block.blist (canonTyp e) []])[base]? = some (.blist et ds) := by
    rw [List.getElem?_append_left hblt]; exact hb
  have hL1 : (h.mem ++ [Block.blist (canonTyp e) []])[h.mem.length]?
      = some (.blist (canonTyp e) []) := List.getElem?_concat_length _ _
  have hloop := convLoop_copy env 0 base (h.mem.length) et (canonTyp e) (canonTyp e) ds
    ds [] { h with mem := h.mem ++ [Block.blist (canonTyp e) []] }
    (by simp) hb1 hL1
    (Nat.ne_of_lt hblt) (by simp)
  simp only [List.length_nil, List.nil_append] at hloop
  simp [GenericValue.convert2, hne, initializeStorage, Heap.alloc, hb, hL1, het,
    show (canonTyp e).ty = e from rfl, hloop, set_append_length]



/-- The `needConvert = true` loop at Int-source / Float-destination element
types: each element is converted (allocating one scratch block), pushed,
and the scratch block destroyed; the destination list accumulates the
casts in order. -/
theorem convLoop_int_to_float (env : Env) (fuel : Nat) (base L : Nat)
    (w p iid0 : Nat) (ct : Typ) (full : List Int) :
    ∀ (suf pre : List Int) (h1 : Heap),
      full = pre ++ suf →
      h1.mem[base]? = some (.blist ⟨.tint w, iid0⟩ (full.map .di)) →
      h1.mem[L]? = some (.blist ct
        (pre.map (fun v : Int => Data.df (roundFloat p (roundFloat 53 (v : ℚ)))))) →
      base ≠ L → L < h1.mem.length →
      ∃ h2, convLoop env (fuel + 1) base ⟨.tint w, iid0⟩ (canonTyp (.tfloat p)) true
          ⟨L, 0⟩ (suf.map .di) pre.length h1 = some h2
        ∧ h2.mem[L]? = some (.blist ct
            (full.map (fun v : Int => Data.df (roundFloat p (roundFloat 53 (v : ℚ))))))
        ∧ h2.mem.length = h1.mem.length + suf.length
        ∧ (∀ j, j < suf.length → (h1.mem.length + j) ∈ h2.freed)
        ∧ (∀ a, a ∈ h1.freed → a ∈ h2.freed) := by
  intro suf
  induction suf with
  | nil =>
    intro pre h1 hfull hbase hdst hne hlt
    rw [List.append_nil] at hfull
    subst hfull
    refine ⟨h1, ?_, hdst, by simp, by simp, fun a ha => ha⟩
    simp [convLoop]
  | cons v rest ih =>
    intro pre h1 hfull hbase hdst hne hlt
    have hblt : base < h1.mem.length := by
      by_contra hge
      rw [List.getElem?_eq_none (Nat.le_of_not_lt hge)] at hbase
      cases hbase
    have hget : intGet h1 ⟨base, (pre.length : Int) + 1⟩ = some v := by
      simp only [intGet, readData, hbase]
      rw [if_neg (by omega)]
      have hidx : ((pre.length : Int) + 1 - 1).toNat = pre.length := by omega
      rw [hidx, hfull, List.map_append, List.getElem?_append_right (by simp)]
      simp
    have hconv : GenericValue.convert2 env (fuel + 1)
        ⟨⟨.tint w, iid0⟩, ⟨base, (pre.length : Int) + 1⟩⟩ (canonTyp (.tfloat p)) h1
        = some ((some ⟨canonTyp (.tfloat p), ⟨h1.mem.length, 0⟩⟩, true),
            { h1 with mem := h1.mem ++ [.bdata (.df (roundFloat p (roundFloat 53 (v : ℚ))))] }) :=
      convert2_cross_int_to_float env fuel w p iid0 0
        ⟨⟨.tint w, iid0⟩, ⟨base, (pre.length : Int) + 1⟩⟩ h1 v rfl hget
    have hpush : pushBack
        { h1 with mem := h1.mem ++ [.bdata (.df (roundFloat p (roundFloat 53 (v : ℚ))))] }
        ⟨L, 0⟩ ⟨canonTyp (.tfloat p), ⟨h1.mem.length, 0⟩⟩
        = some { h1 with mem := ((h1.mem ++
            [Block.bdata (Data.df (roundFloat p (roundFloat 53 (v : ℚ))))]).set L
            (Block.blist ct ((pre.map (fun u : Int => Data.df (roundFloat p (roundFloat 53 (u : ℚ)))))
              ++ [Data.df (roundFloat p (roundFloat 53 (v : ℚ)))]))) } := by
      simp only [pushBack, pushData]
      rw [List.getElem?_append_left hlt, hdst]
      simp only [readData, List.getElem?_concat_length]
      rfl
    have hstep := ih (pre ++ [v])
      { mem := ((h1.mem ++
          [Block.bdata (Data.df (roundFloat p (roundFloat 53 (v : ℚ))))]).set L
          (Block.blist ct ((pre.map (fun u : Int => Data.df (roundFloat p (roundFloat 53 (u : ℚ)))))
            ++ [Data.df (roundFloat p (roundFloat 53 (v : ℚ)))])))
        freed := h1.mem.length :: h1.freed
        warnings := h1.warnings }
      (by simpa using hfull)
      (by
        rw [List.getElem?_set_ne (fun hh => hne hh.symm), List.getElem?_append_left hblt]
        exact hbase)
      (by
        rw [List.getElem?_set_eq_of_lt _ (by simp; omega)]
        simp)
      hne
      (by simp; omega)
    obtain ⟨h2, heq, hL2, hlen2, hfreed2, hmono2⟩ := hstep
    refine ⟨h2, ?_, hL2, ?_, ?_, ?_⟩
    · rw [List.map_cons, convLoop]
      simp only [if_true, hconv, hpush, GenericValue.destroy]
      simpa using heq
    · simp only [List.length_set, List.length_append, List.length_cons, List.length_nil] at hlen2
      simp [hlen2, List.length_cons]
      omega
    · intro j hj
      cases j with
      | zero =>
        refine hmono2 h1.mem.length ?_
        exact List.mem_cons_self _ _
      | succ j2 =>
        have := hfreed2 j2 (by simp at hj; omega)
        simp only [List.length_set, List.length_append, List.length_cons, List.length_nil] at this
        have harith : h1.mem.length + (j2 + 1) = h1.mem.length + 1 + j2 := by omega
        rw [harith]
        simpa using this
    · intro a ha
      exact hmono2 a (List.mem_cons_of_mem _ ha)



theorem convert2_list_int_to_float (env : Env) (fuel : Nat) (h : Heap) (base : Nat)
    (w p iid0 iidS iidD : Nat) (vs : List Int)
    (hb : h.mem[base]? = some (.blist ⟨.tint w, iid0⟩ (vs.map .di))) :
    ∃ h2,
      GenericValue.convert2 env (fuel + 2) ⟨⟨.tlist (.tint w), iidS⟩, ⟨base, 0⟩⟩
          ⟨.tlist (.tfloat p), iidD⟩ h
        = some ((some ⟨⟨.tlist (.tfloat p), iidD⟩, ⟨h.mem.length, 0⟩⟩, true), h2)
      ∧ h2.mem[h.mem.length]? = some (.blist (canonTyp (.tfloat p))
          (vs.map (fun v : Int => Data.df (roundFloat p (roundFloat 53 (v : ℚ))))))
      ∧ h2.mem.length = h.mem.length + 1 + vs.length
      ∧ (∀ j, j < vs.length → (h.mem.length + 1 + j) ∈ h2.freed) := by
  have hblt : base < h.mem.length := by
    by_contra hge
    rw [List.getElem?_eq_none (Nat.le_of_not_lt hge)] at hb
    cases hb
  have hb1 : (h.mem ++ [Block.blist (canonTyp (.tfloat p)) []])[base]?
      = some (.blist ⟨.tint w, iid0⟩ (vs.map .di)) := by
    rw [List.getElem?_append_left hblt]; exact hb
  have hL1 : (h.mem ++ [Block.blist (canonTyp (.tfloat p)) []])[h.mem.length]?
      = some (.blist (canonTyp (.tfloat p)) []) := List.getElem?_concat_length _ _
  have hloop := convLoop_int_to_float env fuel base h.mem.length w p iid0
    (canonTyp (.tfloat p)) vs vs []
    { h with mem := h.mem ++ [Block.blist (canonTyp (.tfloat p)) []] }
    (by simp) hb1 hL1
    (Nat.ne_of_lt hblt) (by simp)
  simp only [List.length_nil, List.map_nil] at hloop
  obtain ⟨h2, heq, hL2, hlen2, hfreed2, hmono2⟩ := hloop
  refine ⟨h2, ?_, hL2, ?_, ?_⟩
  · simp [GenericValue.convert2, Ty.kind, initializeStorage, Heap.alloc, hb, hL1,
      show (canonTyp (Ty.tfloat p)).ty = Ty.tfloat p from rfl, heq]
  · simp only [List.length_append, List.length_cons, List.length_nil] at hlen2
    omega
  · intro j hj
    have := hfreed2 j hj
    simp only [List.length_append, List.length_cons, List.length_nil] at this
    exact this



theorem heapExtends_refl (h : Heap) : HeapExtends h h :=
  ⟨Nat.le_refl _, fun _ _ => rfl, fun _ ha => ha⟩

theorem heapExtendsExcept_refl (L : Nat) (h : Heap) : HeapExtendsExcept L h h :=
  ⟨Nat.le_refl _, fun _ _ _ => rfl, fun _ ha => ha⟩

theorem heapExtendsExcept_of_extends {L : Nat} {h1 h2 : Heap}
    (a : HeapExtends h1 h2) : HeapExtendsExcept L h1 h2 :=
  ⟨a.1, fun i hi _ => a.2.1 i hi, a.2.2⟩

theorem heapExtendsExcept_trans {L : Nat} {h1 h2 h3 : Heap}
    (a : HeapExtendsExcept L h1 h2) (b : HeapExtendsExcept L h2 h3) :
    HeapExtendsExcept L h1 h3 :=
  ⟨Nat.le_trans a.1 b.1,
   fun i hi hne => (b.2.1 i (Nat.lt_of_lt_of_le hi a.1) hne).trans (a.2.1 i hi hne),
   fun x hx => b.2.2 x (a.2.2 x hx)⟩

theorem heapExtends_alloc (h : Heap) (b : Block) :
    HeapExtends h { h with mem := h.mem ++ [b] } :=
  ⟨by simp, fun i hi => List.getElem?_append_left hi, fun _ ha => ha⟩

theorem writeData_extends_of_fresh {h h1 : Heap} {p : Ptr} {d : Data}
    (hx : HeapExtends h h1) (hp : h.mem.length ≤ p.base) :
    HeapExtends h (writeData h1 p d) := by
  refine ⟨?_, ?_, hx.2.2⟩
  · simpa [writeData] using hx.1
  · intro i hi
    simp only [writeData]
    rw [List.getElem?_set_ne (by omega)]
    exact hx.2.1 i hi

theorem initializeStorage_extends {h : Heap} {t : Typ} {p : Ptr} {h1 : Heap}
    (hinit : initializeStorage h t = some (p, h1)) :
    HeapExtends h h1 ∧ p = ⟨h.mem.length, 0⟩
      ∧ h1.mem.length = h.mem.length + 1 ∧ h1.freed = h.freed := by
  unfold initializeStorage at hinit
  split at hinit
  all_goals cases hinit
  all_goals exact ⟨heapExtends_alloc _ _, rfl, by simp, rfl⟩

theorem pushBack_extendsExcept {h h2 : Heap} {p : Ptr} {v : GenericValue}
    (hpb : pushBack h p v = some h2) : HeapExtendsExcept p.base h h2 := by
  unfold pushBack at hpb
  split at hpb
  · cases hpb
    exact ⟨by simp, fun i _ hne => List.getElem?_set_ne (fun hh => hne hh.symm),
      fun _ ha => ha⟩
  · cases hpb

theorem destroy_extends (v : GenericValue) (h : Heap) : HeapExtends h (v.destroy h) :=
  ⟨Nat.le_refl _, fun _ _ => rfl, fun a ha => List.mem_cons_of_mem _ ha⟩

/-- The element loop only grows the heap, only touches the destination
list block among pre-existing blocks, and only grows the freed ledger —
provided every `convert2` call at the loop's fuel does the same. -/
theorem convLoop_extends (env : Env) (fuel : Nat)
    (hc2 : ∀ (src : GenericValue) (tgt : Typ) (h : Heap) (r : Option GenericValue × Bool)
      (h2 : Heap), GenericValue.convert2 env fuel src tgt h = some (r, h2) →
        HeapExtends h h2) :
    ∀ (elems : List Data) (base : Nat) (se de : Typ) (nc : Bool) (dst : Ptr)
      (i : Nat) (h h2 : Heap),
      convLoop env fuel base se de nc dst elems i h = some h2 →
      HeapExtendsExcept dst.base h h2 := by
  intro elems
  induction elems with
  | nil =>
    intro base se de nc dst i h h2 hrun
    rw [convLoop] at hrun
    cases hrun
    exact heapExtendsExcept_refl _ _
  | cons d rest ih =>
    intro base se de nc dst i h h2 hrun
    rw [convLoop] at hrun
    split at hrun
    · split at hrun
      case _ c owns h1 heq =>
        split at hrun
        case _ hp heqp =>
          have e1 : HeapExtendsExcept dst.base h h1 :=
            heapExtendsExcept_of_extends (hc2 _ _ _ _ _ heq)
          have e2 : HeapExtendsExcept dst.base h1 hp := pushBack_extendsExcept heqp
          have e3 : HeapExtendsExcept dst.base hp (if owns then c.destroy hp else hp) := by
            split
            · exact heapExtendsExcept_of_extends (destroy_extends _ _)
            · exact heapExtendsExcept_refl _ _
          exact heapExtendsExcept_trans
            (heapExtendsExcept_trans (heapExtendsExcept_trans e1 e2) e3)
            (ih base se de nc dst (i + 1) _ h2 hrun)
        case _ => cases hrun
      case _ => cases hrun
    · split at hrun
      case _ h1 heqp =>
        exact heapExtendsExcept_trans (pushBack_extendsExcept heqp)
          (ih base se de nc dst (i + 1) _ h2 hrun)
      case _ => cases hrun

/-- The fall-through part of `convert2` only grows the heap and the freed
ledger and never touches pre-existing blocks — provided every `convert2`
call at the given fuel does the same. -/
theorem convert2Rest_extends (env : Env) (f : Nat)
    (hc2 : ∀ (src : GenericValue) (tgt : Typ) (h : Heap) (r : Option GenericValue × Bool)
      (h2 : Heap), GenericValue.convert2 env f src tgt h = some (r, h2) →
        HeapExtends h h2) :
    ∀ (src : GenericValue) (tgt : Typ) (h : Heap) (r : Option GenericValue × Bool)
      (h2 : Heap), convert2Rest env f src tgt h = some (r, h2) → HeapExtends h h2 := by
  intro src tgt h r h2 hconv
  rw [convert2Rest] at hconv
  split at hconv
  · -- Float → Int cross conversion
    split at hconv
    case _ q p h1 heq1 heq2 =>
      simp only [Option.some.injEq, Prod.mk.injEq] at hconv
      obtain ⟨hr, hh2⟩ := hconv
      subst hh2
      obtain ⟨hx, hp, _, _⟩ := initializeStorage_extends heq2
      exact writeData_extends_of_fresh hx (by simp [hp])
    case _ => cases hconv
  · -- Int → Float cross conversion
    split at hconv
    case _ v p h1 heq1 heq2 =>
      simp only [Option.some.injEq, Prod.mk.injEq] at hconv
      obtain ⟨hr, hh2⟩ := hconv
      subst hh2
      obtain ⟨hx, hp, _, _⟩ := initializeStorage_extends heq2
      exact writeData_extends_of_fresh hx (by simp [hp])
    case _ => cases hconv
  · split at hconv
    · -- target is metavalue: wrapper box allocation
      simp only [Option.some.injEq, Prod.mk.injEq] at hconv
      obtain ⟨hr, hh2⟩ := hconv
      subst hh2
      exact heapExtends_alloc _ _
    · split at hconv
      · split at hconv
        case _ t p heq => exact hc2 _ _ _ _ _ hconv
        case _ => cases hconv
      · split at hconv
        · split at hconv
          case _ t p heq => exact hc2 _ _ _ _ _ hconv
          case _ => cases hconv
        · split at hconv
          case _ oid heq =>
            simp only [] at hconv
            split at hconv
            · cases hconv
              exact heapExtends_refl _
            · rw [convert2Tail] at hconv
              split at hconv
              · cases hconv; exact heapExtends_refl _
              · cases hconv; exact heapExtends_refl _
          case _ =>
            rw [convert2Tail] at hconv
            split at hconv
            · cases hconv; exact heapExtends_refl _
            · cases hconv; exact heapExtends_refl _

/-- `convert2` only grows the heap, never touches pre-existing blocks, and
only grows the freed ledger. -/
theorem convert2_extends (env : Env) :
    ∀ (fuel : Nat) (src : GenericValue) (tgt : Typ) (h : Heap)
      (r : Option GenericValue × Bool) (h2 : Heap),
      GenericValue.convert2 env fuel src tgt h = some (r, h2) → HeapExtends h h2 := by
  intro fuel
  induction fuel with
  | zero => intro src tgt h r h2 hconv; simp [GenericValue.convert2] at hconv
  | succ f ih =>
    intro src tgt h r h2 hconv
    rw [GenericValue.convert2] at hconv
    split at hconv
    · cases hconv
      exact heapExtends_refl _
    · split at hconv
      · split at hconv
        · -- Float/Float
          split at hconv
          case _ q p h1 heq1 heq2 =>
            simp only [Option.some.injEq, Prod.mk.injEq] at hconv
            obtain ⟨hr, hh2⟩ := hconv
            subst hh2
            obtain ⟨hx, hp, _, _⟩ := initializeStorage_extends heq2
            exact writeData_extends_of_fresh hx (by simp [hp])
          case _ => cases hconv
        · -- Int/Int
          split at hconv
          case _ v p h1 heq1 heq2 =>
            simp only [Option.some.injEq, Prod.mk.injEq] at hconv
            obtain ⟨hr, hh2⟩ := hconv
            subst hh2
            obtain ⟨hx, hp, _, _⟩ := initializeStorage_extends heq2
            exact writeData_extends_of_fresh hx (by simp [hp])
          case _ => cases hconv
        · -- List/List
          split at hconv
          · split at hconv
            case _ srcElemType selems storage h1 heq1 heq2 =>
              split at hconv
              case _ dstElemType delems heq3 =>
                simp only [] at hconv
                rw [Option.map_eq_some'] at hconv
                obtain ⟨h2', hloop, heq4⟩ := hconv
                simp only [Prod.mk.injEq] at heq4
                obtain ⟨hr, hh2⟩ := heq4
                subst hh2
                obtain ⟨hx1, hpst, hlen1, hfr1⟩ := initializeStorage_extends heq2
                have hloopx := convLoop_extends env f ih selems src.value.base srcElemType
                  dstElemType _ storage 0 h1 h2' hloop
                subst hpst
                refine ⟨Nat.le_trans hx1.1 hloopx.1, ?_,
                  fun a ha => hloopx.2.2 a (hx1.2.2 a ha)⟩
                intro i hi
                rw [hloopx.2.1 i (Nat.lt_of_lt_of_le hi hx1.1)
                  (show i ≠ h.mem.length from by omega)]
                exact hx1.2.1 i hi
              case _ => cases hconv
            case _ => cases hconv
          · cases hconv
        · exact convert2Rest_extends env f ih src tgt h r h2 hconv
      · exact convert2Rest_extends env f ih src tgt h r h2 hconv

/-- General characterization of any completing run of the element loop with
a needed per-element conversion: the destination list accumulates exactly
one datum per source element, in order, the `k`-th being the pushed copy of
the `k`-th per-element conversion's result, and every conversion that
reported owning its storage is destroyed (ends up in the freed ledger). -/
theorem convLoop_run_spec (env : Env) (fuel : Nat) (base : Nat) (et dt : Typ)
    (S : Option Block) :
    ∀ (suf : List Data) (i L : Nat) (ct : Typ) (pre : List Data) (h1 h2 : Heap),
      L < h1.mem.length → base ≠ L → base < h1.mem.length →
      h1.mem[base]? = S →
      h1.mem[L]? = some (.blist ct pre) →
      convLoop env fuel base et dt true ⟨L, 0⟩ suf i h1 = some h2 →
      ∃ ds : List Data,
        h2.mem[L]? = some (.blist ct (pre ++ ds))
        ∧ ds.length = suf.length
        ∧ (∀ a, a ∈ h1.freed → a ∈ h2.freed)
        ∧ (∀ k, k < suf.length →
            ∃ (hA hB : Heap) (c : GenericValue) (o : Bool),
              hA.mem[base]? = S
              ∧ GenericValue.convert2 env fuel ⟨et, ⟨base, (i : Int) + (k : Int) + 1⟩⟩ dt hA
                  = some ((some c, o), hB)
              ∧ pushData hB c = ds[k]?
              ∧ (o = true → c.value.base ∈ h2.freed)) := by
  intro suf
  induction suf with
  | nil =>
    intro i L ct pre h1 h2 hL hneq hbl hbase hdst hrun
    rw [convLoop] at hrun
    cases hrun
    exact ⟨[], by simpa using hdst, rfl, fun _ ha => ha,
      fun k hk => absurd hk (by simp)⟩
  | cons d rest ih =>
    intro i L ct pre h1 h2 hL hneq hbl hbase hdst hrun
    rw [convLoop] at hrun
    simp only [] at hrun
    simp only [if_true] at hrun
    split at hrun
    case _ c o hb heqc =>
      split at hrun
      case _ hp heqp =>
        have hext : HeapExtends h1 hb := convert2_extends env fuel _ _ _ _ _ heqc
        have hlenb : h1.mem.length ≤ hb.mem.length := hext.1
        have hbL : hb.mem[L]? = some (.blist ct pre) := (hext.2.1 L hL).trans hdst
        have hbbase : hb.mem[base]? = S := (hext.2.1 base hbl).trans hbase
        cases hpd : pushData hb c with
        | none =>
          simp only [pushBack, hbL, hpd] at heqp
          cases heqp
        | some dd =>
          simp only [pushBack, hbL, hpd, Option.some.injEq] at heqp
          subst heqp
          have key : ∀ (hmid : Heap),
              hmid.mem = hb.mem.set L (Block.blist ct (pre ++ [dd])) →
              (∀ a, a ∈ hb.freed → a ∈ hmid.freed) →
              (o = true → c.value.base ∈ hmid.freed) →
              convLoop env fuel base et dt true ⟨L, 0⟩ rest (i + 1) hmid = some h2 →
              ∃ ds : List Data,
                h2.mem[L]? = some (.blist ct (pre ++ ds))
                ∧ ds.length = (d :: rest).length
                ∧ (∀ a, a ∈ h1.freed → a ∈ h2.freed)
                ∧ (∀ k, k < (d :: rest).length →
                    ∃ (hA hB : Heap) (c2 : GenericValue) (o2 : Bool),
                      hA.mem[base]? = S
                      ∧ GenericValue.convert2 env fuel
                          ⟨et, ⟨base, (i : Int) + (k : Int) + 1⟩⟩ dt hA
                          = some ((some c2, o2), hB)
                      ∧ pushData hB c2 = ds[k]?
                      ∧ (o2 = true → c2.value.base ∈ h2.freed)) := by
            intro hmid hm1 hm2 hm3 hrun2
            obtain ⟨ds2, hds1, hds2, hds3, hds4⟩ := ih (i + 1) L ct (pre ++ [dd]) hmid h2
              (by rw [hm1]; simp only [List.length_set]; omega)
              hneq
              (by rw [hm1]; simp only [List.length_set]; omega)
              (by rw [hm1, List.getElem?_set_ne (fun hh => hneq hh.symm)]; exact hbbase)
              (by rw [hm1, List.getElem?_set_eq_of_lt _ (by omega)])
              hrun2
            refine ⟨dd :: ds2, by simpa [List.append_assoc] using hds1,
              by simp [hds2], ?_, ?_⟩
            · intro a ha
              exact hds3 a (hm2 a (hext.2.2 a ha))
            · intro k hk
              cases k with
              | zero =>
                refine ⟨h1, hb, c, o, hbase, by simpa using heqc, by simp [hpd], ?_⟩
                intro ho
                exact hds3 _ (hm3 ho)
              | succ k2 =>
                obtain ⟨hA, hB, c2, o2, hA1, hA2, hA3, hA4⟩ :=
                  hds4 k2 (by simp at hk; omega)
                refine ⟨hA, hB, c2, o2, hA1, ?_, by simpa using hA3, hA4⟩
                have harith : (((i + 1 : Nat) : Int)) + (k2 : Int) + 1
                    = (i : Int) + ((k2 + 1 : Nat) : Int) + 1 := by push_cast; ring
                rw [harith] at hA2
                exact hA2
          by_cases ho : o = true
          · rw [if_pos ho] at hrun
            exact key (c.destroy ⟨hb.mem.set L (Block.blist ct (pre ++ [dd])),
                hb.freed, hb.warnings⟩) (by simp [GenericValue.destroy])
              (fun a ha => List.mem_cons_of_mem _ ha)
              (fun _ => List.mem_cons_self _ _) hrun
          · rw [if_neg ho] at hrun
            exact key ⟨hb.mem.set L (Block.blist ct (pre ++ [dd])), hb.freed, hb.warnings⟩
              rfl (fun _ ha => ha) (fun hcontra => absurd hcontra ho) hrun
      case _ => cases hrun
    case _ => cases hrun

/-- Any completing run of the List branch of `convert2` with a different
(effective) destination element type: the result is the freshly allocated
destination list, reported as owned; it holds exactly one datum per source
element, in order, the `k`-th being the pushed copy of the result of the
per-element conversion of the `k`-th source element view; every
per-element conversion that reported owning its storage is destroyed. -/
theorem convert2_list_general (env : Env) (fuel : Nat) (h : Heap) (base : Nat)
    (se de : Ty) (iidS iidD : Nat) (et : Typ) (selems : List Data)
    (r : Option GenericValue × Bool) (h2 : Heap)
    (hb : h.mem[base]? = some (.blist et selems))
    (hne : et.ty ≠ de)
    (hptr : (⟨.tlist se, iidS⟩ : Typ) ≠ ⟨.tlist de, iidD⟩)
    (hrun : GenericValue.convert2 env (fuel + 1) ⟨⟨.tlist se, iidS⟩, ⟨base, 0⟩⟩
        ⟨.tlist de, iidD⟩ h = some (r, h2)) :
    r.1 = some ⟨⟨.tlist de, iidD⟩, ⟨h.mem.length, 0⟩⟩ ∧ r.2 = true
      ∧ ∃ ds : List Data,
          h2.mem[h.mem.length]? = some (.blist (canonTyp de) ds)
          ∧ ds.length = selems.length
          ∧ (∀ k, k < selems.length →
              ∃ (hA hB : Heap) (c : GenericValue) (o : Bool),
                hA.mem[base]? = some (.blist et selems)
                ∧ GenericValue.convert2 env fuel ⟨et, ⟨base, (k : Int) + 1⟩⟩
                    (canonTyp de) hA = some ((some c, o), hB)
                ∧ pushData hB c = ds[k]?
                ∧ (o = true → c.value.base ∈ h2.freed)) := by
  have hblt : base < h.mem.length := by
    by_contra hge
    rw [List.getElem?_eq_none (Nat.le_of_not_lt hge)] at hb
    cases hb
  have hL1 : (h.mem ++ [Block.blist (canonTyp de) []])[h.mem.length]?
      = some (.blist (canonTyp de) []) := List.getElem?_concat_length _ _
  have hstep : GenericValue.convert2 env (fuel + 1) ⟨⟨.tlist se, iidS⟩, ⟨base, 0⟩⟩
      ⟨.tlist de, iidD⟩ h
      = (convLoop env fuel base et (canonTyp de) true ⟨h.mem.length, 0⟩ selems 0
          { h with mem := h.mem ++ [.blist (canonTyp de) []] }).map
        (fun h2 => ((some ⟨⟨.tlist de, iidD⟩, ⟨h.mem.length, 0⟩⟩, true), h2)) := by
    simp [GenericValue.convert2, Ty.kind, hptr, initializeStorage, Heap.alloc, hb, hL1,
      show (canonTyp de).ty = de from rfl, hne]
  rw [hstep, Option.map_eq_some'] at hrun
  obtain ⟨h2', hloop, heq⟩ := hrun
  simp only [Prod.mk.injEq] at heq
  obtain ⟨hr, hh2⟩ := heq
  subst hh2
  subst hr
  obtain ⟨ds, hds1, hds2, hds3, hds4⟩ := convLoop_run_spec env fuel base et (canonTyp de)
    (some (.blist et selems)) selems 0 h.mem.length (canonTyp de) []
    { h with mem := h.mem ++ [.blist (canonTyp de) []] } h2'
    (by simp) (Nat.ne_of_lt hblt) (by simp; omega)
    ((List.getElem?_append_left hblt).trans hb) hL1 hloop
  refine ⟨rfl, rfl, ds, by simpa using hds1, hds2, ?_⟩
  intro k hk
  obtain ⟨hA, hB, c, o, hA1, hA2, hA3, hA4⟩ := hds4 k hk
  refine ⟨hA, hB, c, o, hA1, ?_, hA3, hA4⟩
  have harith : (((0 : Nat) : Int)) + (k : Int) + 1 = (k : Int) + 1 := by push_cast; ring
  rw [harith] at hA2
  exact hA2


/-- Claim C3 (counterexample): converting the one-element `list<int32_t>`
`[5]` to `list<GenericValue>` completes, but the per-element conversion
wraps the source element view in a freshly allocated metavalue box — the
heap grows from 2 to 3 blocks under it (second and third/fourth
conjuncts) — while reporting `owns_new_storage = false`, so the loop never
destroys the box: the final heap of the whole conversion (first conjunct)
still holds it at address 2 and its freed ledger is empty.  This refutes
the claim's clause that every per-element conversion that allocated new
storage is destroyed after the push. -/
theorem convert2_list_element_alloc_not_destroyed :
    (GenericValue.convert2 envTriv 2 ⟨⟨.tlist (.tint 32), 0⟩, ⟨0, 0⟩⟩
        ⟨.tlist .tGenericValue, 0⟩ ⟨[.blist ⟨.tint 32, 0⟩ [.di 5]], [], 0⟩
      = some ((some ⟨⟨.tlist .tGenericValue, 0⟩, ⟨1, 0⟩⟩, true),
          ⟨[.blist ⟨.tint 32, 0⟩ [.di 5],
            .blist (canonTyp .tGenericValue) [.dval ⟨.tint 32, 0⟩ ⟨0, 1⟩],
            .bbox ⟨.tint 32, 0⟩ ⟨0, 1⟩], [], 0⟩))
    ∧ (GenericValue.convert2 envTriv 1 ⟨⟨.tint 32, 0⟩, ⟨0, 1⟩⟩ (canonTyp .tGenericValue)
        ⟨[.blist ⟨.tint 32, 0⟩ [.di 5], .blist (canonTyp .tGenericValue) []], [], 0⟩
      = some ((some ⟨canonTyp .tGenericValue, ⟨2, 0⟩⟩, false),
          ⟨[.blist ⟨.tint 32, 0⟩ [.di 5], .blist (canonTyp .tGenericValue) [],
            .bbox ⟨.tint 32, 0⟩ ⟨0, 1⟩], [], 0⟩))
    ∧ (⟨[.blist ⟨.tint 32, 0⟩ [.di 5], .blist (canonTyp .tGenericValue) []], [], 0⟩
        : Heap).mem.length = 2
    ∧ ([.blist ⟨.tint 32, 0⟩ [.di 5], .blist (canonTyp .tGenericValue) [],
        .bbox ⟨.tint 32, 0⟩ ⟨0, 1⟩] : List Block).length = 3 := by
  refine ⟨?_, ?_, rfl, rfl⟩
  · simp [GenericValue.convert2, convLoop, convert2Rest, Ty.kind, canonTyp,
      initializeStorage, Heap.alloc, pushBack, pushData, readData]
  · simp [GenericValue.convert2, convert2Rest, Ty.kind, canonTyp, Heap.alloc]

/-- Claim C3 (amended): converting a list through `convert2` to a list
type with a different element type yields, for every completing run and
whatever the element types, a freshly allocated owned list of the same
length with elements in the same order — the `k`-th result element being
the pushed copy of the result of the per-element conversion of the `k`-th
source element view — and every per-element conversion that *reported
owning* its new storage (`owns_new_storage = true`) is destroyed after its
push.  The original claim's stronger destroy clause — covering every
per-element conversion that *allocated* new storage — is false: a
per-element conversion to the metavalue element type allocates a wrapper
box yet reports `owns = false`, and the loop does not destroy it (see the
counterexample).  The second conjunct instantiates the general statement
at the Int-to-Float element family, where each per-element conversion is
the numeric cast, owns its scratch block, and all the scratch addresses
`h.mem.length + 1 + j` end up in the freed ledger; the third conjunct is
the identical-element-type case: the per-element conversion is skipped
entirely — the loop pushes the elements directly, succeeds already at
fuel 1 (no recursive `convert2` call is ever consulted), copies the
element data unchanged and allocates nothing but the result list. -/
theorem convert2_list_conversion (env : Env) (h : Heap) (base : Nat) :
    (∀ (fuel : Nat) (se de : Ty) (iidS iidD : Nat) (et : Typ) (selems : List Data)
       (r : Option GenericValue × Bool) (h2 : Heap),
      h.mem[base]? = some (.blist et selems) →
      et.ty ≠ de →
      (⟨.tlist se, iidS⟩ : Typ) ≠ ⟨.tlist de, iidD⟩ →
      GenericValue.convert2 env (fuel + 1) ⟨⟨.tlist se, iidS⟩, ⟨base, 0⟩⟩
          ⟨.tlist de, iidD⟩ h = some (r, h2) →
      r.1 = some ⟨⟨.tlist de, iidD⟩, ⟨h.mem.length, 0⟩⟩ ∧ r.2 = true
        ∧ ∃ ds : List Data,
            h2.mem[h.mem.length]? = some (.blist (canonTyp de) ds)
            ∧ ds.length = selems.length
            ∧ (∀ k, k < selems.length →
                ∃ (hA hB : Heap) (c : GenericValue) (o : Bool),
                  hA.mem[base]? = some (.blist et selems)
                  ∧ GenericValue.convert2 env fuel ⟨et, ⟨base, (k : Int) + 1⟩⟩
                      (canonTyp de) hA = some ((some c, o), hB)
                  ∧ pushData hB c = ds[k]?
                  ∧ (o = true → c.value.base ∈ h2.freed)))
    ∧ (∀ (fuel w p iid0 iidS iidD : Nat) (vs : List Int),
      h.mem[base]? = some (.blist ⟨.tint w, iid0⟩ (vs.map .di)) →
      ∃ h2,
        GenericValue.convert2 env (fuel + 2) ⟨⟨.tlist (.tint w), iidS⟩, ⟨base, 0⟩⟩
            ⟨.tlist (.tfloat p), iidD⟩ h
          = some ((some ⟨⟨.tlist (.tfloat p), iidD⟩, ⟨h.mem.length, 0⟩⟩, true), h2)
        ∧ h2.mem[h.mem.length]? = some (.blist (canonTyp (.tfloat p))
            (vs.map (fun v : Int => Data.df (roundFloat p (roundFloat 53 (v : ℚ))))))
        ∧ (vs.map (fun v : Int => Data.df (roundFloat p (roundFloat 53 (v : ℚ))))).length
            = vs.length
        ∧ h2.mem.length = h.mem.length + 1 + vs.length
        ∧ (∀ j, j < vs.length → (h.mem.length + 1 + j) ∈ h2.freed))
    ∧ (∀ (e : Ty) (et : Typ) (iidS iidD : Nat) (ds : List Data),
      iidS ≠ iidD → et.ty = e → h.mem[base]? = some (.blist et ds) →
      GenericValue.convert2 env 1 ⟨⟨.tlist e, iidS⟩, ⟨base, 0⟩⟩ ⟨.tlist e, iidD⟩ h
        = some ((some ⟨⟨.tlist e, iidD⟩, ⟨h.mem.length, 0⟩⟩, true),
            { h with mem := h.mem ++ [.blist (canonTyp e) ds] })) := by
  refine ⟨?_, ?_, ?_⟩
  · intro fuel se de iidS iidD et selems r h2 hb hne hptr hrun
    exact convert2_list_general env fuel h base se de iidS iidD et selems r h2
      hb hne hptr hrun
  · intro fuel w p iid0 iidS iidD vs hb
    obtain ⟨h2, ha, hbb, hc, hd⟩ :=
      convert2_list_int_to_float env fuel h base w p iid0 iidS iidD vs hb
    exact ⟨h2, ha, hbb, by simp, hc, hd⟩
  · intro e et iidS iidD ds hne het hb
    exact convert2_list_same_elem env h base e et iidS iidD ds hne het hb

/-- Witness for C3: `[1, 2]` as an `int` list is converted three ways —
to `list<GenericValue>` (exercising the general part: length 2, order,
each element the pushed copy of its per-element wrapper conversion), to a
`double` list (order, length, per-element cast, scratch blocks 2 and 3
freed), and to another `int`-list descriptor instance at fuel 1 by direct
copy. -/
theorem convert2_list_conversion_witness :
    ((⟨[.blist ⟨.tint 32, 0⟩ [.di 1, .di 2]], [], 0⟩ : Heap).mem[(0 : Nat)]?
        = some (.blist ⟨.tint 32, 0⟩ [.di 1, .di 2])
      ∧ (⟨.tint 32, 0⟩ : Typ).ty ≠ .tGenericValue
      ∧ (⟨.tlist (.tint 32), 0⟩ : Typ) ≠ ⟨.tlist .tGenericValue, 0⟩
      ∧ (0 : Nat) ≠ 1 ∧ (⟨.tint 32, 0⟩ : Typ).ty = .tint 32)
    ∧ (((some ⟨⟨.tlist .tGenericValue, 0⟩, ⟨1, 0⟩⟩, true)
          : Option GenericValue × Bool).1 = some ⟨⟨.tlist .tGenericValue, 0⟩, ⟨1, 0⟩⟩
      ∧ ((some ⟨⟨.tlist .tGenericValue, 0⟩, ⟨1, 0⟩⟩, true)
          : Option GenericValue × Bool).2 = true
      ∧ ∃ ds : List Data,
          (⟨[.blist ⟨.tint 32, 0⟩ [.di 1, .di 2],
             .blist (canonTyp .tGenericValue)
               [.dval ⟨.tint 32, 0⟩ ⟨0, 1⟩, .dval ⟨.tint 32, 0⟩ ⟨0, 2⟩],
             .bbox ⟨.tint 32, 0⟩ ⟨0, 1⟩, .bbox ⟨.tint 32, 0⟩ ⟨0, 2⟩], [], 0⟩
            : Heap).mem[(1 : Nat)]? = some (.blist (canonTyp .tGenericValue) ds)
          ∧ ds.length = 2
          ∧ (∀ k : Nat, k < 2 →
              ∃ (hA hB : Heap) (c : GenericValue) (o : Bool),
                hA.mem[(0 : Nat)]? = some (.blist ⟨.tint 32, 0⟩ [.di 1, .di 2])
                ∧ GenericValue.convert2 envTriv 1 ⟨⟨.tint 32, 0⟩, ⟨0, (k : Int) + 1⟩⟩
                    (canonTyp .tGenericValue) hA = some ((some c, o), hB)
                ∧ pushData hB c = ds[k]?
                ∧ (o = true → c.value.base ∈
                    (⟨[.blist ⟨.tint 32, 0⟩ [.di 1, .di 2],
                       .blist (canonTyp .tGenericValue)
                         [.dval ⟨.tint 32, 0⟩ ⟨0, 1⟩, .dval ⟨.tint 32, 0⟩ ⟨0, 2⟩],
                       .bbox ⟨.tint 32, 0⟩ ⟨0, 1⟩, .bbox ⟨.tint 32, 0⟩ ⟨0, 2⟩], [], 0⟩
                      : Heap).freed)))
    ∧ (∃ h2,
        GenericValue.convert2 envTriv 2 ⟨⟨.tlist (.tint 32), 3⟩, ⟨0, 0⟩⟩
            ⟨.tlist (.tfloat 53), 4⟩ ⟨[.blist ⟨.tint 32, 0⟩ [.di 1, .di 2]], [], 0⟩
          = some ((some ⟨⟨.tlist (.tfloat 53), 4⟩, ⟨1, 0⟩⟩, true), h2)
        ∧ h2.mem[(1 : Nat)]? = some (.blist (canonTyp (.tfloat 53))
            ([1, 2].map (fun v : Int => Data.df (roundFloat 53 (roundFloat 53 (v : ℚ))))))
        ∧ ([1, 2].map (fun v : Int =>
            Data.df (roundFloat 53 (roundFloat 53 (v : ℚ))))).length = 2
        ∧ h2.mem.length = 4
        ∧ (∀ j, j < 2 → (2 + j) ∈ h2.freed))
    ∧ GenericValue.convert2 envTriv 1 ⟨⟨.tlist (.tint 32), 0⟩, ⟨0, 0⟩⟩
          ⟨.tlist (.tint 32), 1⟩ ⟨[.blist ⟨.tint 32, 0⟩ [.di 1, .di 2]], [], 0⟩
        = some ((some ⟨⟨.tlist (.tint 32), 1⟩, ⟨1, 0⟩⟩, true),
            ⟨[.blist ⟨.tint 32, 0⟩ [.di 1, .di 2],
              .blist (canonTyp (.tint 32)) [.di 1, .di 2]], [], 0⟩) := by
  refine ⟨⟨rfl, by decide, by decide, by decide, rfl⟩, ?_, ?_, ?_⟩
  · exact (convert2_list_conversion envTriv
      ⟨[.blist ⟨.tint 32, 0⟩ [.di 1, .di 2]], [], 0⟩ 0).1 1 (.tint 32) .tGenericValue 0 0
      ⟨.tint 32, 0⟩ [.di 1, .di 2] (some ⟨⟨.tlist .tGenericValue, 0⟩, ⟨1, 0⟩⟩, true)
      ⟨[.blist ⟨.tint 32, 0⟩ [.di 1, .di 2],
        .blist (canonTyp .tGenericValue)
          [.dval ⟨.tint 32, 0⟩ ⟨0, 1⟩, .dval ⟨.tint 32, 0⟩ ⟨0, 2⟩],
        .bbox ⟨.tint 32, 0⟩ ⟨0, 1⟩, .bbox ⟨.tint 32, 0⟩ ⟨0, 2⟩], [], 0⟩
      rfl (by decide) (by decide)
      (by simp [GenericValue.convert2, convLoop, convert2Rest, Ty.kind, canonTyp,
        initializeStorage, Heap.alloc, pushBack, pushData, readData])
  · exact (convert2_list_conversion envTriv
      ⟨[.blist ⟨.tint 32, 0⟩ [.di 1, .di 2]], [], 0⟩ 0).2.1 0 32 53 0 3 4 [1, 2] rfl
  · exact (convert2_list_conversion envTriv
      ⟨[.blist ⟨.tint 32, 0⟩ [.di 1, .di 2]], [], 0⟩ 0).2.2 (.tint 32) ⟨.tint 32, 0⟩ 0 1
      [.di 1, .di 2] (by decide) rfl rfl

/-- Claim C9: `advertiseMethod` derives the full signature at registration
as the name, then `::(`, then the concatenation of the parameter type
tokens in parameter order, then `)`; the return-type signature is derived
independently of the parameter envelope and handed over separately (as the
first argument of `xAdvertiseMethod`). -/
theorem advertiseMethod_signature_derivation (env : TypeEnv) (name : String)
    (args : List CppType) (ret : CppType) :
    advertiseMethodFree env name args ret
      = (name ++ "::(" ++ String.join (args.map (paramToken env)) ++ ")", env.tok ret) := by
  unfold advertiseMethodFree signatureEnvelope
  rw [foldl_append_tokens]

/-- Claim C10: parameter tokens are computed from the parameter type with
reference and const qualifiers removed — `T`, `T&` and `const T&` yield the
same token — and the member overload of `advertiseMethod` drops the
receiver object type (the first entry of the member function's parameter
list) from the envelope. -/
theorem advertiseMethod_normalization_and_member_receiver :
    (∀ (env : TypeEnv) (n : Nat),
      paramToken env (.base n) = env.tok (.base n)
        ∧ paramToken env (.ref (.base n)) = env.tok (.base n)
        ∧ paramToken env (.ref (.constQ (.base n))) = env.tok (.base n)
        ∧ paramToken env (.constQ (.base n)) = env.tok (.base n))
      ∧ (∀ (env : TypeEnv) (name : String) (c : CppType) (args : List CppType)
          (ret : CppType),
          advertiseMethodMember env name (c :: args) ret
            = advertiseMethodFree env name args ret) :=
  ⟨fun _ _ => ⟨rfl, rfl, rfl, rfl⟩, fun _ _ _ _ _ => rfl⟩

/-- Claim C1: calling through `qi_object_call` with a signature that is not
registered in the target object's `MetaObject` does not resolve to an error
delivered through the returned future — the method lookup yields the
sentinel `-1`, `method(-1)` yields no `MetaMethod`, and the code
dereferences the null result (`mm->sigreturn()`) before any future exists:
a native fault outside the future channel (modelled as `none`, versus
`some _` for every registered signature). -/
theorem qi_object_call_unknown_signature_faults :
    qi_object_call ⟨[]⟩ "missing::()" = none
      ∧ qi_object_call ⟨[⟨0, "echo::(s)", "s"⟩]⟩ "missing::()" = none
      ∧ qi_object_call ⟨[⟨0, "echo::(s)", "s"⟩]⟩ "echo::(s)" = some ("s", "echo::(s)")
      ∧ MetaObject.methodId ⟨[⟨0, "echo::(s)", "s"⟩]⟩ "missing::()" = -1 :=
  ⟨rfl, rfl, rfl, rfl⟩

/-- Claim C8 (counterexample): the return value of
`qi_object_builder_register_method` does not distinguish a failed
registration from a successful one — registering the same complete
signature twice returns `0` both times, even though the second attempt is
a builder-level duplicate-signature conflict (`xAdvertiseMethod` would
report `-1` for that signature on the updated builder, while it reported
id `0` on the empty builder). -/
theorem register_method_return_does_not_distinguish :
    (qi_object_builder_register_method ⟨[], 0⟩ "s::echo::(s)").2 = 0
      ∧ (qi_object_builder_register_method
          (qi_object_builder_register_method ⟨[], 0⟩ "s::echo::(s)").1 "s::echo::(s)").2 = 0
      ∧ (xAdvertiseMethod ⟨[], 0⟩ "s" "echo::(s)").2 = 0
      ∧ (xAdvertiseMethod (qi_object_builder_register_method ⟨[], 0⟩ "s::echo::(s)").1
          "s" "echo::(s)").2 = -1 :=
  ⟨rfl, rfl, rfl, rfl⟩

/-- Claim C8 (amended): the registration work — including synchronous
duplicate detection — happens inside the builder call made during
`qi_object_builder_register_method`, but the C entry point's own return
value is the constant `0` for every input and therefore does not
distinguish failure from success. -/
theorem register_method_synchronous_constant_return (b : GenericObjectBuilder)
    (s : String) :
    (qi_object_builder_register_method b s).2 = 0
      ∧ (qi_object_builder_register_method b s).1
        = (xAdvertiseMethod b ((signatureSplit s).getD 0 "")
            (((signatureSplit s).getD 1 "") ++ "::" ++ ((signatureSplit s).getD 2 ""))).1 :=
  ⟨rfl, rfl⟩

end qi
